import Mathlib

/-!
Verification development for the finresearch-agent core:
shallow embedding of the state manager (state.py), snapshot builder
(snapshot.py / state.py), canonical JSON serialization (utils/jsonutil.py),
the in-memory TTL cache (cache/memory_cache.py), the range cache policy
(datasources/market.py) and the risk rule engine (rules.py, rules/engine.py),
together with theorems settling the specified properties.

Modelling conventions:
- Python floats are modelled as rationals (ℚ); json float rendering is
  modelled as the shortest decimal rendering of a 12-digit decimal.
- datetimes are modelled by their aware isoformat strings (model_dump in
  json mode and the json default hook both render a datetime to isoformat,
  attaching UTC to naive ones); comparison of datetimes written with one
  common offset agrees with string comparison of their isoformats.
- dates carry year/month/day and render with zero-padded isoformat.
- wall-clock reads (datetime.now, time.time) and uuid4 draws are passed in
  as explicit parameters.
-/

namespace FinResearch

/-- Gregorian calendar date (datetime.date). -/
structure DateT where
  year : Nat
  month : Nat
  day : Nat
deriving DecidableEq, Repr

/-- Zero-pad a numeral to the given width. -/
def padNum (width : Nat) (n : Nat) : String :=
  let s := toString n
  let l := s.length
  if l < width then String.mk (List.replicate (width - l) (Char.ofNat 48)) ++ s else s

/-- date.isoformat(): YYYY-MM-DD with zero padding. -/
def DateT.isoformat (d : DateT) : String :=
  padNum 4 d.year ++ "-" ++ padNum 2 d.month ++ "-" ++ padNum 2 d.day

/-- Gregorian leap-year test. -/
def isLeap (y : Nat) : Bool :=
  (y % 4 == 0 && y % 100 != 0) || (y % 400 == 0)

/-- Number of days in a month. -/
def daysInMonth (y m : Nat) : Nat :=
  if m == 2 then (if isLeap y then 29 else 28)
  else if m == 4 || m == 6 || m == 9 || m == 11 then 30
  else 31

/-- The day after the given calendar date. -/
def DateT.nextDay (d : DateT) : DateT :=
  if d.day < daysInMonth d.year d.month then ⟨d.year, d.month, d.day + 1⟩
  else if d.month < 12 then ⟨d.year, d.month + 1, 1⟩
  else ⟨d.year + 1, 1, 1⟩

/-- Lexicographic (year, month, day) order: d1 ≤ d2. -/
def DateT.le (a b : DateT) : Bool :=
  a.year < b.year ||
    (a.year == b.year && (a.month < b.month ||
      (a.month == b.month && a.day ≤ b.day)))

/-- Strict date order. -/
def DateT.lt (a b : DateT) : Bool :=
  DateT.le a b && !(a == b)

/-- Enumerate calendar days from cur while cur ≤ last, bounded by fuel. -/
def daysRangeAux : Nat → DateT → DateT → List DateT
  | 0, _, _ => []
  | fuel + 1, cur, last =>
    if DateT.le cur last then cur :: daysRangeAux fuel (DateT.nextDay cur) last
    else []

/-- Every calendar day in [start, last] (pd.date_range with daily frequency).
366 days per calendar year spanned is a safe bound on the count. -/
def daysRange (start last : DateT) : List DateT :=
  daysRangeAux ((last.year + 2 - start.year) * 366) start last

/-- Code-point lexicographic order on character lists: how Python
compares strings. -/
def charListLe : List Char → List Char → Bool
  | [], _ => true
  | _ :: _, [] => false
  | a :: as, b :: bs =>
    if a.toNat < b.toNat then true
    else if b.toNat < a.toNat then false
    else charListLe as bs

/-- Python string comparison s1 <= s2 (code-point lexicographic). -/
def strLeB (a b : String) : Bool := charListLe a.data b.data

/-- Python max of two strings. -/
def strMax (a b : String) : String := if strLeB a b then b else a

/-- JSON-compatible Python value: None, bool, int, float, str,
date, datetime (by isoformat string), list, dict (insertion-ordered). -/
inductive JVal where
  | jnull : JVal
  | jbool : Bool → JVal
  | jint : Int → JVal
  | jnum : ℚ → JVal
  | jstr : String → JVal
  | jdate : DateT → JVal
  | jdt : String → JVal
  | jarr : List JVal → JVal
  | jobj : List (String × JVal) → JVal

/-- round(x, 12): round a numeric leaf to the nearest multiple of 10^-12
(ties towards +infinity; Python rounds ties to even, a distinction no
statement here touches). -/
def round12 (q : ℚ) : ℚ :=
  mkRat (Int.fdiv (2 * (q.num * 1000000000000) + (q.den : ℤ))
    (2 * (q.den : ℤ))) 1000000000000

mutual
/-- _stable from utils/jsonutil.py: recursively sort mapping items by key,
round float leaves to 12 decimal digits, leave everything else alone. -/
def jstable : JVal → JVal
  | JVal.jobj l =>
    JVal.jobj (List.insertionSort (fun a b => strLeB a.1 b.1) (jstableObj l))
  | JVal.jarr l => JVal.jarr (jstableArr l)
  | JVal.jnum q => JVal.jnum (round12 q)
  | v => v

def jstableArr : List JVal → List JVal
  | [] => []
  | v :: rest => jstable v :: jstableArr rest

def jstableObj : List (String × JVal) → List (String × JVal)
  | [] => []
  | (k, v) :: rest => (k, jstable v) :: jstableObj rest
end

/-- JSON string escaping as json.dumps with ensure_ascii=False performs it:
backslash, double quote and ASCII control characters are escaped, other
characters pass through unchanged. -/
def jEscapeChar (c : Char) : String :=
  if c = Char.ofNat 92 then String.mk [Char.ofNat 92, Char.ofNat 92]
  else if c = Char.ofNat 34 then String.mk [Char.ofNat 92, Char.ofNat 34]
  else if c = Char.ofNat 10 then String.mk [Char.ofNat 92, Char.ofNat 110]
  else if c = Char.ofNat 13 then String.mk [Char.ofNat 92, Char.ofNat 114]
  else if c = Char.ofNat 9 then String.mk [Char.ofNat 92, Char.ofNat 116]
  else if c.toNat < 32 then
    String.mk [Char.ofNat 92, Char.ofNat 117, Char.ofNat 48, Char.ofNat 48]
      ++ padNum 2 c.toNat
  else String.mk [c]

/-- Escape and quote a JSON string. -/
def jQuote (s : String) : String :=
  String.mk [Char.ofNat 34] ++ String.join (s.data.map jEscapeChar)
    ++ String.mk [Char.ofNat 34]

/-- Render a 12-digit decimal rational the way repr renders the
corresponding float (sign, integer part, fraction with trailing zeros
stripped; a whole number renders with a trailing .0). -/
def renderFloatQ (q : ℚ) : String :=
  let sign := if q.num < 0 then "-" else ""
  let n : Nat := q.num.natAbs * (1000000000000 / q.den)
  let whole := n / 1000000000000
  let frac := n % 1000000000000
  if frac = 0 then sign ++ toString whole ++ ".0"
  else
    let digits := padNum 12 frac
    let trimmed := String.mk (digits.data.reverse.dropWhile
      (fun c => c = Char.ofNat 48)).reverse
    sign ++ toString whole ++ "." ++ trimmed

mutual
/-- Recursively sort every mapping of the tree by key: the effect of
sort_keys=True in json.dumps, factored out as a pre-pass so that
serialization itself is structurally recursive. -/
def jsortKeys : JVal → JVal
  | JVal.jobj l =>
    JVal.jobj (List.insertionSort (fun a b => strLeB a.1 b.1) (jsortKeysObj l))
  | JVal.jarr l => JVal.jarr (jsortKeysArr l)
  | v => v

def jsortKeysArr : List JVal → List JVal
  | [] => []
  | v :: rest => jsortKeys v :: jsortKeysArr rest

def jsortKeysObj : List (String × JVal) → List (String × JVal)
  | [] => []
  | (k, v) :: rest => (k, jsortKeys v) :: jsortKeysObj rest
end

mutual
/-- json.dumps rendering of a value in tree order; isep and ksep are the
item and key separators. The json default hook (_default in
utils/jsonutil.py) renders date and datetime leaves to isoformat strings. -/
def dumpsV (isep ksep : String) : JVal → String
  | JVal.jnull => "null"
  | JVal.jbool b => if b then "true" else "false"
  | JVal.jint i => toString i
  | JVal.jnum q => renderFloatQ q
  | JVal.jstr s => jQuote s
  | JVal.jdate d => jQuote d.isoformat
  | JVal.jdt s => jQuote s
  | JVal.jarr l => "[" ++ dumpsArr isep ksep l ++ "]"
  | JVal.jobj l => "\x7b" ++ dumpsObj isep ksep l ++ "\x7d"

def dumpsArr (isep ksep : String) : List JVal → String
  | [] => ""
  | [v] => dumpsV isep ksep v
  | v :: rest =>
    dumpsV isep ksep v ++ isep ++ dumpsArr isep ksep rest

def dumpsObj (isep ksep : String) : List (String × JVal) → String
  | [] => ""
  | [(k, v)] => jQuote k ++ ksep ++ dumpsV isep ksep v
  | (k, v) :: rest =>
    jQuote k ++ ksep ++ dumpsV isep ksep v ++ isep
      ++ dumpsObj isep ksep rest
end

/-- json_dumps from utils/jsonutil.py: default separators, insertion order. -/
def json_dumps (v : JVal) : String := dumpsV ", " ": " v

/-- canonical_dumps from utils/jsonutil.py: _stable, then json.dumps with
sort_keys=True (modelled by the jsortKeys pre-pass) and compact separators. -/
def canonical_dumps (v : JVal) : String :=
  dumpsV "," ":" (jsortKeys (jstable v))

/-! SHA-256 (FIPS 180-4) over byte lists, with arithmetic on Nat modulo 2^32;
models hashlib.sha256(...).hexdigest(). -/

/-- Truncate to 32 bits. -/
def m32 (n : Nat) : Nat := n % 4294967296

/-- 32-bit right rotation. -/
def rotr (k x : Nat) : Nat := m32 ((x >>> k) ||| (x <<< (32 - k)))

/-- SHA-256 round constants. -/
def shaK : List Nat :=
  [1116352408, 1899447441, 3049323471, 3921009573, 961987163, 1508970993,
   2453635748, 2870763221, 3624381080, 310598401, 607225278, 1426881987,
   1925078388, 2162078206, 2614888103, 3248222580, 3835390401, 4022224774,
   264347078, 604807628, 770255983, 1249150122, 1555081692, 1996064986,
   2554220882, 2821834349, 2952996808, 3210313671, 3336571891, 3584528711,
   113926993, 338241895, 666307205, 773529912, 1294757372, 1396182291,
   1695183700, 1986661051, 2177026350, 2456956037, 2730485921, 2820302411,
   3259730800, 3345764771, 3516065817, 3600352804, 4094571909, 275423344,
   430227734, 506948616, 659060556, 883997877, 958139571, 1322822218,
   1537002063, 1747873779, 1955562222, 2024104815, 2227730452, 2361852424,
   2428436474, 2756734187, 3204031479, 3329325298]

/-- Big-endian bytes of a Nat, fixed width. -/
def beBytes : Nat → Nat → List Nat
  | 0, _ => []
  | w + 1, n => beBytes w (n / 256) ++ [n % 256]

/-- SHA-256 message padding: append 0x80, zero bytes, then the 64-bit
big-endian bit length. -/
def shaPad (msg : List Nat) : List Nat :=
  let len := msg.length
  let zeros := (55 + 64 - len % 64) % 64
  msg ++ 128 :: List.replicate zeros 0 ++ beBytes 8 (len * 8)

/-- Combine 4 bytes into a big-endian 32-bit word. -/
def wordsOf : List Nat → List Nat
  | b0 :: b1 :: b2 :: b3 :: rest =>
    (((b0 * 256 + b1) * 256 + b2) * 256 + b3) :: wordsOf rest
  | _ => []

/-- Split into 16-word blocks; the fuel argument only bounds recursion
depth. -/
def blocksOfAux : Nat → List Nat → List (List Nat)
  | 0, _ => []
  | fuel + 1, l =>
    if l.length < 16 then [] else l.take 16 :: blocksOfAux fuel (l.drop 16)

/-- Split into 16-word blocks. -/
def blocksOf (l : List Nat) : List (List Nat) := blocksOfAux l.length l

/-- One extension step of the message schedule, appending word number
w.size. -/
def shaScheduleStep (w : Array Nat) : Array Nat :=
  let i := w.size
  let g := fun j => w.getD j 0
  let s0 := (rotr 7 (g (i - 15))) ^^^ (rotr 18 (g (i - 15))) ^^^ ((g (i - 15)) >>> 3)
  let s1 := (rotr 17 (g (i - 2))) ^^^ (rotr 19 (g (i - 2))) ^^^ ((g (i - 2)) >>> 10)
  w.push (m32 (g (i - 16) + s0 + g (i - 7) + s1))

/-- Message schedule: extend the 16 block words to 64. -/
def shaSchedule : Nat → Array Nat → Array Nat
  | 0, w => w
  | n + 1, w => shaSchedule n (shaScheduleStep w)

/-- One round of the SHA-256 compression function. -/
def shaRound (st : List Nat) (ki wi : Nat) : List Nat :=
  match st with
  | [a, b, c, d, e, f, g, h] =>
    let s1 := (rotr 6 e) ^^^ (rotr 11 e) ^^^ (rotr 25 e)
    let ch := (e &&& f) ^^^ ((4294967295 - e) &&& g)
    let t1 := m32 (h + s1 + ch + ki + wi)
    let s0 := (rotr 2 a) ^^^ (rotr 13 a) ^^^ (rotr 22 a)
    let mj := (a &&& b) ^^^ (a &&& c) ^^^ (b &&& c)
    let t2 := m32 (s0 + mj)
    [m32 (t1 + t2), a, b, c, m32 (d + t1), e, f, g]
  | other => other

/-- Compress one 16-word block into the running hash state. -/
def shaCompress (hs : List Nat) (block : List Nat) : List Nat :=
  let w := shaSchedule 48 (Array.mk block)
  let st := (List.zip shaK w.toList).foldl (fun st kw => shaRound st kw.1 kw.2) hs
  List.zipWith (fun x y => m32 (x + y)) hs st

/-- Hex rendering of one 32-bit word (8 lowercase hex digits). -/
def hexWord (n : Nat) : String :=
  let digit := fun d => if d < 10 then Char.ofNat (48 + d) else Char.ofNat (87 + d)
  String.mk ((List.range 8).map (fun i => digit (n >>> ((7 - i) * 4) &&& 15)))

/-- SHA-256 hex digest of a byte list. -/
def sha256hex (msg : List Nat) : String :=
  let init := [1779033703, 3144134277, 1013904242, 2773480762,
    1359893119, 2600822924, 528734635, 1541459225]
  let hs := (blocksOf (wordsOf (shaPad msg))).foldl shaCompress init
  String.join (hs.map hexWord)

/-- UTF-8 encoding of a string as a byte list (str.encode). -/
def utf8Bytes (s : String) : List Nat :=
  s.data.flatMap (fun c =>
    let n := c.toNat
    if n < 128 then [n]
    else if n < 2048 then [192 + n / 64, 128 + n % 64]
    else if n < 65536 then [224 + n / 4096, 128 + (n / 64) % 64, 128 + n % 64]
    else [240 + n / 262144, 128 + (n / 4096) % 64, 128 + (n / 64) % 64, 128 + n % 64])

/-- Association-list lookup (dict read). -/
def dGet {β : Type} (l : List (String × β)) (k : String) : Option β :=
  (l.find? (fun e => e.1 == k)).map Prod.snd

/-- Dict write: overwrite in place when the key exists, else append
(Python dict insertion-order semantics). -/
def dSet {β : Type} (l : List (String × β)) (k : String) (v : β) : List (String × β) :=
  if (l.find? (fun e => e.1 == k)).isSome then
    l.map (fun e => if e.1 == k then (e.1, v) else e)
  else l ++ [(k, v)]

/-- Dict removal (dict.pop(key, None)). -/
def dPop {β : Type} (l : List (String × β)) (k : String) : List (String × β) :=
  l.filter (fun e => e.1 != k)

/-! Data models from models.py (model_config forbids extra fields; every
model is a plain record). Float fields are rationals, datetime fields are
isoformat strings, date fields are DateT. -/

/-- CompanyIdentity (models.py). matched_on is one of ticker, company_name,
alias. -/
structure CompanyIdentity where
  symbol : String
  market : String
  company_name : String
  matched_on : String
  query : String
deriving DecidableEq, Repr

/-- MarketBar (models.py). The open field is named open_ because open is a
Lean keyword. -/
structure MarketBar where
  date : DateT
  open_ : ℚ
  high : ℚ
  low : ℚ
  close : ℚ
  volume : Int
deriving DecidableEq, Repr

/-- MarketData (models.py). -/
structure MarketData where
  symbol : String
  source : String
  data_timestamp : String
  bars : List MarketBar
deriving DecidableEq, Repr

/-- FinancialQuarter (models.py); values maps names to raw numbers or None. -/
structure FinancialQuarter where
  symbol : String
  quarter : String
  source : String
  data_timestamp : String
  source_timestamp : Option String
  values : List (String × JVal)

/-- TechnicalIndicators (models.py). -/
structure TechnicalIndicators where
  algo_version : String
  as_of : DateT
  ma_20 : Option ℚ
  ma_50 : Option ℚ
  volatility_20 : Option ℚ
  max_drawdown : Option ℚ
deriving DecidableEq, Repr

/-- RiskMetrics (models.py). -/
structure RiskMetrics where
  algo_version : String
  as_of : DateT
  sharpe_20 : Option ℚ
  var_95_20 : Option ℚ
deriving DecidableEq, Repr

/-- RiskFlag (models.py); severity is one of low, medium, high. -/
structure RiskFlag where
  code : String
  severity : String
  title : String
  details : String
  evidence : List (String × JVal)

/-- RuleResults (models.py). -/
structure RuleResults where
  rule_version : String
  flags : List RiskFlag

/-- AnalysisSnapshot (models.py). -/
structure AnalysisSnapshot where
  analysis_id : String
  symbol : String
  market : String
  company_name : String
  as_of : DateT
  data_timestamps : List (String × String)
  algo_versions : List (String × String)
  identity : CompanyIdentity
  market_data : MarketData
  financials : List FinancialQuarter
  technicals : TechnicalIndicators
  risk : RiskMetrics
  rules : RuleResults

/-- Render an optional float (python None or float). -/
def optQ : Option ℚ → JVal
  | none => JVal.jnull
  | some q => JVal.jnum q

/-- Render an optional string. -/
def optS : Option String → JVal
  | none => JVal.jnull
  | some s => JVal.jstr s

/-- CompanyIdentity.model_dump(mode="json"): fields in declaration order. -/
def CompanyIdentity.toJ (c : CompanyIdentity) : JVal :=
  JVal.jobj [("symbol", JVal.jstr c.symbol), ("market", JVal.jstr c.market),
    ("company_name", JVal.jstr c.company_name),
    ("matched_on", JVal.jstr c.matched_on), ("query", JVal.jstr c.query)]

/-- MarketBar.model_dump(mode="json"): the date renders as isoformat. -/
def MarketBar.toJ (b : MarketBar) : JVal :=
  JVal.jobj [("date", JVal.jstr b.date.isoformat), ("open", JVal.jnum b.open_),
    ("high", JVal.jnum b.high), ("low", JVal.jnum b.low),
    ("close", JVal.jnum b.close), ("volume", JVal.jint b.volume)]

/-- MarketData.model_dump(mode="json"). -/
def MarketData.toJ (m : MarketData) : JVal :=
  JVal.jobj [("symbol", JVal.jstr m.symbol), ("source", JVal.jstr m.source),
    ("data_timestamp", JVal.jdt m.data_timestamp),
    ("bars", JVal.jarr (m.bars.map MarketBar.toJ))]

/-- FinancialQuarter.model_dump(mode="json"). -/
def FinancialQuarter.toJ (f : FinancialQuarter) : JVal :=
  JVal.jobj [("symbol", JVal.jstr f.symbol), ("quarter", JVal.jstr f.quarter),
    ("source", JVal.jstr f.source), ("data_timestamp", JVal.jdt f.data_timestamp),
    ("source_timestamp", match f.source_timestamp with
      | none => JVal.jnull
      | some s => JVal.jdt s),
    ("values", JVal.jobj f.values)]

/-- TechnicalIndicators.model_dump(mode="json"). -/
def TechnicalIndicators.toJ (t : TechnicalIndicators) : JVal :=
  JVal.jobj [("algo_version", JVal.jstr t.algo_version),
    ("as_of", JVal.jstr t.as_of.isoformat), ("ma_20", optQ t.ma_20),
    ("ma_50", optQ t.ma_50), ("volatility_20", optQ t.volatility_20),
    ("max_drawdown", optQ t.max_drawdown)]

/-- RiskMetrics.model_dump(mode="json"). -/
def RiskMetrics.toJ (r : RiskMetrics) : JVal :=
  JVal.jobj [("algo_version", JVal.jstr r.algo_version),
    ("as_of", JVal.jstr r.as_of.isoformat), ("sharpe_20", optQ r.sharpe_20),
    ("var_95_20", optQ r.var_95_20)]

/-- RiskFlag.model_dump(mode="json"). -/
def RiskFlag.toJ (f : RiskFlag) : JVal :=
  JVal.jobj [("code", JVal.jstr f.code), ("severity", JVal.jstr f.severity),
    ("title", JVal.jstr f.title), ("details", JVal.jstr f.details),
    ("evidence", JVal.jobj f.evidence)]

/-- RuleResults.model_dump(mode="json"). -/
def RuleResults.toJ (r : RuleResults) : JVal :=
  JVal.jobj [("rule_version", JVal.jstr r.rule_version),
    ("flags", JVal.jarr (r.flags.map RiskFlag.toJ))]

/-- AnalysisSnapshot.model_dump(mode="json"). -/
def AnalysisSnapshot.toJ (s : AnalysisSnapshot) : JVal :=
  JVal.jobj [("analysis_id", JVal.jstr s.analysis_id),
    ("symbol", JVal.jstr s.symbol), ("market", JVal.jstr s.market),
    ("company_name", JVal.jstr s.company_name),
    ("as_of", JVal.jstr s.as_of.isoformat),
    ("data_timestamps", JVal.jobj (s.data_timestamps.map
      (fun e => (e.1, JVal.jdt e.2)))),
    ("algo_versions", JVal.jobj (s.algo_versions.map
      (fun e => (e.1, JVal.jstr e.2)))),
    ("identity", s.identity.toJ), ("market_data", s.market_data.toJ),
    ("financials", JVal.jarr (s.financials.map FinancialQuarter.toJ)),
    ("technicals", s.technicals.toJ), ("risk", s.risk.toJ),
    ("rules", s.rules.toJ)]

/-! Snapshot builder (state.py, build_snapshot / _hash_seed /
_persist_snapshot). -/

/-- _hash_seed: SHA-256 hex digest of the canonical serialization. -/
def _hash_seed (seed : JVal) : String :=
  sha256hex (utf8Bytes (canonical_dumps seed))

/-- max(generator, default): maximum of a list of isoformat timestamps,
falling back to the default only when the list is empty. -/
def maxTimestamp (l : List String) (dflt : String) : String :=
  match l with
  | [] => dflt
  | t :: rest => rest.foldl strMax t

/-- The data_timestamps mapping computed by build_snapshot. -/
def buildDataTimestamps (market_data : MarketData)
    (financials : List FinancialQuarter) : List (String × String) :=
  [("market_data", market_data.data_timestamp),
   ("financials", maxTimestamp (financials.map FinancialQuarter.data_timestamp)
     market_data.data_timestamp)]

/-- The algo_versions mapping computed by build_snapshot. -/
def buildAlgoVersions (technicals : TechnicalIndicators) (risk : RiskMetrics)
    (rules : RuleResults) : List (String × String) :=
  [("metrics", technicals.algo_version), ("risk", risk.algo_version),
   ("rules", rules.rule_version)]

/-- The seed dict hashed by build_snapshot, entries in source order; the
raw as_of date and the datetime values are rendered by the json default
hook during canonicalization. -/
def buildSeed (identity : CompanyIdentity) (as_of : DateT)
    (market_data : MarketData) (financials : List FinancialQuarter)
    (technicals : TechnicalIndicators) (risk : RiskMetrics)
    (rules : RuleResults) : JVal :=
  JVal.jobj [
    ("symbol", JVal.jstr identity.symbol),
    ("market", JVal.jstr identity.market),
    ("company_name", JVal.jstr identity.company_name),
    ("as_of", JVal.jdate as_of),
    ("data_timestamps", JVal.jobj ((buildDataTimestamps market_data financials).map
      (fun e => (e.1, JVal.jdt e.2)))),
    ("algo_versions", JVal.jobj ((buildAlgoVersions technicals risk rules).map
      (fun e => (e.1, JVal.jstr e.2)))),
    ("identity", identity.toJ),
    ("market_data", market_data.toJ),
    ("financials", JVal.jarr (financials.map FinancialQuarter.toJ)),
    ("technicals", technicals.toJ),
    ("risk", risk.toJ),
    ("rules", rules.toJ)]

/-- build_snapshot (state.py): assemble the content-addressed snapshot.
The optional persist_dir branch is modelled by _persist_snapshot below and
the optional state_manager branch by update_state / save_checkpoint. -/
def build_snapshot (identity : CompanyIdentity) (as_of : DateT)
    (market_data : MarketData) (financials : List FinancialQuarter)
    (technicals : TechnicalIndicators) (risk : RiskMetrics)
    (rules : RuleResults) : AnalysisSnapshot :=
  let analysis_id :=
    _hash_seed (buildSeed identity as_of market_data financials technicals risk rules)
  { analysis_id := analysis_id
    symbol := identity.symbol
    market := identity.market
    company_name := identity.company_name
    as_of := as_of
    data_timestamps := buildDataTimestamps market_data financials
    algo_versions := buildAlgoVersions technicals risk rules
    identity := identity
    market_data := market_data
    financials := financials
    technicals := technicals
    risk := risk
    rules := rules }

/-- Filesystem model: mapping from paths to file contents; directory
creation does not affect file contents. -/
def FSState := List (String × String)

/-- _persist_snapshot (state.py): write persist_dir/analysis_id.json only
when no such file exists; an existing file is left untouched. -/
def _persist_snapshot (fs : FSState) (snapshot : AnalysisSnapshot)
    (persist_dir : String) : FSState :=
  match dGet fs (persist_dir ++ "/" ++ snapshot.analysis_id ++ ".json") with
  | some _ => fs
  | none => dSet fs (persist_dir ++ "/" ++ snapshot.analysis_id ++ ".json")
      (json_dumps snapshot.toJ)

/-! Risk rule engine (rules.py; rules/engine.py carries the identical
apply_risk_rules over the same table). -/

/-- Version constants from constants.py. -/
def METRICS_ALGO_VERSION : String := "metrics_v1.0.0"

def RISK_ALGO_VERSION : String := "risk_v1.0.0"

def RISK_RULES_VERSION : String := "risk_rules_v1"

def DEFAULT_TTL_SECONDS : Int := 60 * 60 * 24

/-- One entry of the declarative rule table. -/
structure RiskRule where
  code : String
  severity : String
  title : String
  field : String
  op : String
  threshold : ℚ
  details : String

/-- RISK_RULES_V1 from rules.py, in declaration order. -/
def RISK_RULES_V1 : List RiskRule :=
  [{ code := "DRAWDOWN_HIGH", severity := "high",
     title := "Large peak-to-trough drawdown",
     field := "technicals.max_drawdown", op := "<=", threshold := mkRat (-2) 10,
     details := "Max drawdown at or below -20% over the available window." },
   { code := "VOLATILITY_HIGH", severity := "medium",
     title := "Elevated short-term volatility",
     field := "technicals.volatility_20", op := ">=", threshold := mkRat 4 100,
     details := "20-day return volatility at or above 4% (daily)." },
   { code := "SHARPE_NEGATIVE", severity := "medium",
     title := "Negative short-term Sharpe",
     field := "risk.sharpe_20", op := "<", threshold := 0,
     details := "20-day Sharpe ratio below 0 indicates unfavorable risk-adjusted returns." },
   { code := "VAR_TAIL_RISK", severity := "high",
     title := "Large 1-day VaR (95%)",
     field := "risk.var_95_20", op := "<=", threshold := mkRat (-5) 100,
     details := "Historical 1-day VaR at 95% at or below -5% based on the last 20 returns." }]

/-- TechnicalIndicators.model_dump(mode="python"): dates and floats stay
Python objects. -/
def TechnicalIndicators.toJP (t : TechnicalIndicators) : JVal :=
  JVal.jobj [("algo_version", JVal.jstr t.algo_version),
    ("as_of", JVal.jdate t.as_of), ("ma_20", optQ t.ma_20),
    ("ma_50", optQ t.ma_50), ("volatility_20", optQ t.volatility_20),
    ("max_drawdown", optQ t.max_drawdown)]

/-- RiskMetrics.model_dump(mode="python"). -/
def RiskMetrics.toJP (r : RiskMetrics) : JVal :=
  JVal.jobj [("algo_version", JVal.jstr r.algo_version),
    ("as_of", JVal.jdate r.as_of), ("sharpe_20", optQ r.sharpe_20),
    ("var_95_20", optQ r.var_95_20)]

/-- _get_field walk over the split dotted path: stop with None as soon as
the current value is not a mapping or lacks the key. -/
def getFieldParts : JVal → List String → Option JVal
  | cur, [] => some cur
  | JVal.jobj l, p :: rest =>
    match dGet l p with
    | some v => getFieldParts v rest
    | none => none
  | _, _ :: _ => none

/-- str.split(".") on the dotted path, by structural recursion over the
characters. -/
def splitDotAux : List Char → List Char → List String
  | [], acc => [String.mk acc.reverse]
  | c :: rest, acc =>
    if c = Char.ofNat 46 then String.mk acc.reverse :: splitDotAux rest []
    else splitDotAux rest (c :: acc)

/-- str.split("."). -/
def splitDot (s : String) : List String := splitDotAux s.data []

/-- _get_field from rules.py: nested lookup along a dotted path. -/
def _get_field (ctx : JVal) (dotted : String) : Option JVal :=
  getFieldParts ctx (splitDot dotted)

/-- float(value) coercion on a resolved rule value; a non-numeric value
raises (modelled as error). -/
def pyFloat : JVal → Except String ℚ
  | JVal.jnum q => Except.ok q
  | JVal.jint i => Except.ok (i : ℚ)
  | JVal.jbool b => Except.ok (if b then 1 else 0)
  | _ => Except.error "could not convert value to float"

/-- _compare from rules.py; an unknown operator raises ValueError. -/
def _compare (v : ℚ) (op : String) (t : ℚ) : Except String Bool :=
  if op = "<=" then Except.ok (decide (v ≤ t))
  else if op = "<" then Except.ok (decide (v < t))
  else if op = ">=" then Except.ok (decide (v ≥ t))
  else if op = ">" then Except.ok (decide (v > t))
  else if op = "==" then Except.ok (decide (v = t))
  else Except.error ("Unsupported op: " ++ op)

/-- The RiskFlag emitted for a matched rule: evidence records the field
path, the observed (uncoerced) value and the threshold. -/
def ruleFlag (rule : RiskRule) (value : JVal) : RiskFlag :=
  { code := rule.code, severity := rule.severity, title := rule.title,
    details := rule.details,
    evidence := [("field", JVal.jstr rule.field), ("value", value),
      ("threshold", JVal.jnum rule.threshold)] }

/-- value is None. -/
def JVal.isNull : JVal → Bool
  | JVal.jnull => true
  | _ => false

/-- The loop body of apply_risk_rules over a rule list: skip silently when
the field is unresolved or null, otherwise coerce to float, compare, and
emit the flag on a match; flags keep rule order. -/
def evalRules (ctx : JVal) : List RiskRule → Except String (List RiskFlag)
  | [] => Except.ok []
  | rule :: rest =>
    match _get_field ctx rule.field with
    | none => evalRules ctx rest
    | some value =>
      if value.isNull then evalRules ctx rest
      else
        match pyFloat value with
        | Except.error e => Except.error e
        | Except.ok x =>
          match _compare x rule.op rule.threshold with
          | Except.error e => Except.error e
          | Except.ok matched =>
            match evalRules ctx rest with
            | Except.error e => Except.error e
            | Except.ok flags =>
              Except.ok (if matched then ruleFlag rule value :: flags else flags)

/-- The flat field namespace the engine evaluates against. -/
def ctxOf (technicals : TechnicalIndicators) (risk : RiskMetrics) : JVal :=
  JVal.jobj [("technicals", technicals.toJP), ("risk", risk.toJP)]

/-- apply_risk_rules from rules.py: evaluate RISK_RULES_V1 against the
technicals/risk namespace and stamp the shared rule version. -/
def apply_risk_rules (technicals : TechnicalIndicators) (risk : RiskMetrics) :
    Except String RuleResults :=
  match evalRules (ctxOf technicals risk) RISK_RULES_V1 with
  | Except.error e => Except.error e
  | Except.ok flags => Except.ok { rule_version := RISK_RULES_VERSION, flags := flags }

/-- Specification-side outcome of one rule: skipped (none) when the field
is unresolved, null, non-numeric, or the comparison fails or does not
match; the evidenced flag exactly when the comparison holds. -/
def ruleOutcome (ctx : JVal) (rule : RiskRule) : Option RiskFlag :=
  match _get_field ctx rule.field with
  | none => none
  | some v =>
    if v.isNull then none
    else
      match pyFloat v with
      | Except.error _ => none
      | Except.ok x =>
        match _compare x rule.op rule.threshold with
        | Except.error _ => none
        | Except.ok b => if b then some (ruleFlag rule v) else none

/-! In-memory TTL cache (cache/memory_cache.py). time.time() is passed in
as the parameter now. -/

/-- InMemoryJSONCache state: key maps to (expires_at, value); an
expires_at of 0 marks a never-expiring entry. -/
structure InMemoryJSONCache where
  store : List (String × (ℚ × JVal))

/-- get_json: a missing key or an entry past its nonzero expires_at is
absent; an expired entry is popped on read. -/
def InMemoryJSONCache.get_json (c : InMemoryJSONCache) (now : ℚ)
    (key : String) : Option JVal × InMemoryJSONCache :=
  match dGet c.store key with
  | none => (none, c)
  | some item =>
    let expires_at := item.1
    if expires_at ≠ 0 ∧ now > expires_at then (none, ⟨dPop c.store key⟩)
    else (some item.2, c)

/-- set_json: a zero ttl_seconds stores expires_at 0 (never expires),
otherwise expires_at is now + ttl_seconds. -/
def InMemoryJSONCache.set_json (c : InMemoryJSONCache) (now : ℚ)
    (key : String) (value : JVal) (ttl_seconds : ℚ) : InMemoryJSONCache :=
  let expires_at := if ttl_seconds ≠ 0 then now + ttl_seconds else 0
  ⟨dSet c.store key (expires_at, value)⟩

/-! Range cache policy (datasources/market.py, MarketDataService). The
cache backend is modelled as an association from keys to the bar records
that _cache_bars writes; the upstream provider is an oracle function. -/

/-- The JSON record _cache_bars stores per (symbol, date) key. -/
structure BarVal where
  symbol : String
  date : DateT
  open_ : ℚ
  high : ℚ
  low : ℚ
  close : ℚ
  volume : Int
  source : String
  data_timestamp : String
deriving DecidableEq, Repr

/-- MarketDataService._key: "market_data:SYMBOL:ISODATE". -/
def mkey (symbol : String) (day : DateT) : String :=
  "market_data:" ++ symbol ++ ":" ++ day.isoformat

/-- The upstream provider boundary: a name and a fetch_daily oracle. -/
structure ProviderOracle where
  name : String
  fetch_daily : DateT → DateT → MarketData

/-- Outcome of one get_daily_range call: the returned series, the cache
contents afterwards, and whether the upstream provider was called. -/
structure RangeFetchResult where
  result : MarketData
  cache : List (String × BarVal)
  provider_called : Bool
deriving Repr

/-- MarketDataService._cache_bars: write every bar of the fetched series
back into the cache under its own (symbol, date) key, all tagged with the
series timestamp. -/
def cacheBars (cache : List (String × BarVal)) (symbol : String)
    (market_data : MarketData) (ttl_seconds : Int) : List (String × BarVal) :=
  let _ := ttl_seconds
  market_data.bars.foldl (fun c bar =>
    dSet c (mkey symbol bar.date)
      { symbol := symbol, date := bar.date, open_ := bar.open_,
        high := bar.high, low := bar.low, close := bar.close,
        volume := bar.volume, source := market_data.source,
        data_timestamp := market_data.data_timestamp }) cache

/-- Decode a cached record back into a MarketBar as the hit loop does. -/
def barOfHit (h : BarVal) : MarketBar :=
  { date := h.date, open_ := h.open_, high := h.high, low := h.low,
    close := h.close, volume := h.volume }

/-- MarketDataService.get_daily_range: probe the cache for every calendar
day in [start, last]; if the distinct cached dates reach max(min_bars, 1)
return the sorted hits tagged with the max observed timestamp, else fetch
the full range upstream and write it back. now stands in for the
datetime.now() fallback timestamp of an impossible empty-hit branch. -/
def get_daily_range (cache : List (String × BarVal)) (provider : ProviderOracle)
    (ttl_seconds : Int) (now : String) (symbol : String)
    (start last : DateT) (min_bars : Int) : RangeFetchResult :=
  let days := daysRange start last
  let hits := days.filterMap (fun d => dGet cache (mkey symbol d))
  let cached := hits.map barOfHit
  let timestamps := hits.map BarVal.data_timestamp
  let have_dates := (cached.map MarketBar.date).dedup
  if (have_dates.length : Int) ≥ max min_bars 1 then
    let sortedBars := List.insertionSort (fun a b => DateT.le a.date b.date) cached
    let ts := (match timestamps with
      | [] => now
      | t :: rest => rest.foldl strMax t)
    let md : MarketData :=
      { symbol := symbol, source := provider.name,
        data_timestamp := ts, bars := sortedBars }
    { result := md, cache := cache, provider_called := false }
  else if have_dates.length = 0 then
    let fetched := provider.fetch_daily start last
    { result := fetched, cache := cacheBars cache symbol fetched ttl_seconds,
      provider_called := true }
  else
    let fetched := provider.fetch_daily start last
    { result := fetched, cache := cacheBars cache symbol fetched ttl_seconds,
      provider_called := true }

/-- A calendar-valid date (month and day in range). -/
def validDate (d : DateT) : Bool :=
  1 ≤ d.month && d.month ≤ 12 && 1 ≤ d.day && d.day ≤ daysInMonth d.year d.month

/-- Injection of dates into Nat that is strictly monotone along nextDay. -/
def dateRank (d : DateT) : Nat := d.year * 512 + d.month * 32 + d.day

/-- Every cached entry under a (symbol, day) key carries that day as its
date field — the well-formedness _cache_bars maintains. -/
def cacheDatesOk (cache : List (String × BarVal)) (symbol : String)
    (days : List DateT) : Bool :=
  days.all (fun d =>
    match dGet cache (mkey symbol d) with
    | some hit => hit.date == d
    | none => true)

/-- The calendar days of the range whose cache probe hits. -/
def hitDays (cache : List (String × BarVal)) (symbol : String)
    (start last : DateT) : List DateT :=
  (daysRange start last).filter (fun d => (dGet cache (mkey symbol d)).isSome)

/-- The records returned by the cache probes, in day order. -/
def hitVals (cache : List (String × BarVal)) (symbol : String)
    (start last : DateT) : List BarVal :=
  (daysRange start last).filterMap (fun d => dGet cache (mkey symbol d))

/-- The record _cache_bars writes for one bar of a fetched series. -/
def barRecord (symbol : String) (md : MarketData) (bar : MarketBar) : BarVal :=
  { symbol := symbol, date := bar.date, open_ := bar.open_, high := bar.high,
    low := bar.low, close := bar.close, volume := bar.volume,
    source := md.source, data_timestamp := md.data_timestamp }

/-! State manager (state.py). datetime.now() values are abstract clock
readings (Nat); uuid4() draws are explicit string parameters. The manager
is modelled without a storage backend (storage_backend=None,
cache_backend=None), which disables only the durable persistence branch of
save_checkpoint. deepcopy of a value is the value itself in this pure
model; the aliasing behaviour of the accessors is modelled separately by
the heap embedding further below. -/

/-- LLMMessage (state.py). -/
structure LLMMessage where
  role : String
  content : String
  timestamp : Nat
  token_count : Option Int
  metadata : List (String × JVal)

/-- SnapshotMetadata (state.py). -/
structure SnapshotMetadata where
  timestamp : Nat
  step_index : Int
  node_name : String
  thread_id : String
  total_tokens : Int
  execution_time_ms : ℚ
  error : Option String

/-- ResearchState (state.py). -/
structure ResearchState where
  thread_id : String
  query : String
  target : Option CompanyIdentity
  data_store : List (String × JVal)
  analytic_metrics : List (String × JVal)
  rules_violations : List JVal
  messages : List LLMMessage
  snapshot_metadata : Option SnapshotMetadata
  final_snapshot : Option AnalysisSnapshot

/-- StateManager mutable fields: the single active state and the per-thread
in-memory checkpoint history. -/
structure StateManager where
  current_state : Option ResearchState
  checkpoints : List (String × List ResearchState)

/-- A freshly constructed manager. -/
def StateManager.new : StateManager := { current_state := none, checkpoints := [] }

/-- Python: a or b, where an empty string is falsy. -/
def pyOr (a : Option String) (b : String) : String :=
  match a with
  | none => b
  | some s => if s = "" then b else s

/-- init_state (state.py): fresh state with step 0 and node "init"; the
two uuid4() draws for a missing thread_id are independent (u1 for the
state, u2 for the metadata). Returns the new manager and the state. -/
def init_state (m : StateManager) (query : String) (thread_id : Option String)
    (u1 u2 : String) (now : Nat) : StateManager × ResearchState :=
  let state : ResearchState :=
    { thread_id := pyOr thread_id u1
      query := query
      target := none
      data_store := []
      analytic_metrics := []
      rules_violations := []
      messages := []
      snapshot_metadata := some
        { timestamp := now, step_index := 0, node_name := "init",
          thread_id := pyOr thread_id u2, total_tokens := 0,
          execution_time_ms := 0, error := none }
      final_snapshot := none }
  ({ m with current_state := some state }, state)

/-- A well-typed (key, value) argument pair for update_state. The single
message / single violation forms model a non-list value passed for a
list-typed field (valid only with append, where the code wraps it). -/
inductive UpdKV where
  | kthread_id (s : String)
  | kquery (s : String)
  | ktarget (t : Option CompanyIdentity)
  | kdata_store (d : List (String × JVal))
  | kanalytic_metrics (d : List (String × JVal))
  | krules_violations (l : List JVal)
  | krules_violation (x : JVal)
  | kmessages (l : List LLMMessage)
  | kmessage (msg : LLMMessage)
  | ksnapshot_metadata (md : Option SnapshotMetadata)
  | kfinal_snapshot (s : Option AnalysisSnapshot)

/-- Whether the argument addresses the snapshot_metadata field. -/
def UpdKV.isMeta : UpdKV → Bool
  | UpdKV.ksnapshot_metadata _ => true
  | _ => false

/-- Apply one field assignment to the dumped state: append only applies to
the list fields messages and rules_violations (a non-list value is wrapped
into a singleton first); any other key is plain assignment. none models a
pydantic validation failure (a non-list value assigned to a list field). -/
def applyKV (s : ResearchState) (kv : UpdKV) (append : Bool) :
    Option ResearchState :=
  match kv, append with
  | UpdKV.kmessages l, true => some { s with messages := s.messages ++ l }
  | UpdKV.kmessage msg, true => some { s with messages := s.messages ++ [msg] }
  | UpdKV.krules_violations l, true =>
    some { s with rules_violations := s.rules_violations ++ l }
  | UpdKV.krules_violation x, true =>
    some { s with rules_violations := s.rules_violations ++ [x] }
  | UpdKV.kmessages l, false => some { s with messages := l }
  | UpdKV.kmessage _, false => none
  | UpdKV.krules_violations l, false => some { s with rules_violations := l }
  | UpdKV.krules_violation _, false => none
  | UpdKV.kthread_id v, _ => some { s with thread_id := v }
  | UpdKV.kquery v, _ => some { s with query := v }
  | UpdKV.ktarget v, _ => some { s with target := v }
  | UpdKV.kdata_store v, _ => some { s with data_store := v }
  | UpdKV.kanalytic_metrics v, _ => some { s with analytic_metrics := v }
  | UpdKV.ksnapshot_metadata v, _ => some { s with snapshot_metadata := v }
  | UpdKV.kfinal_snapshot v, _ => some { s with final_snapshot := v }

/-- update_state (state.py): uninitialized manager raises; otherwise apply
the assignment, then, when the (possibly just replaced) snapshot_metadata
is truthy, bump step_index by 1 and refresh its timestamp. On a validation
failure the manager is unchanged. -/
def update_state (m : StateManager) (kv : UpdKV) (append : Bool) (now : Nat) :
    StateManager × Except String ResearchState :=
  match m.current_state with
  | none => (m, Except.error "State not initialized. Call init_state() first.")
  | some s =>
    match applyKV s kv append with
    | none => (m, Except.error "validation error")
    | some s1 =>
      let s2 := (match s1.snapshot_metadata with
        | some md =>
          let md2 := { md with step_index := md.step_index + 1, timestamp := now }
          { s1 with snapshot_metadata := some md2 }
        | none => s1)
      ({ m with current_state := some s2 }, Except.ok s2)

/-- get_state (state.py): a copy of the current state, None when absent. -/
def get_state (m : StateManager) : Option ResearchState :=
  m.current_state

/-- Append a checkpoint to the history list of its thread. -/
def cpAppend (cps : List (String × List ResearchState)) (tid : String)
    (st : ResearchState) : List (String × List ResearchState) :=
  match dGet cps tid with
  | some l => dSet cps tid (l ++ [st])
  | none => cps ++ [(tid, [st])]

/-- save_checkpoint (state.py): copy the current state, optionally
overwrite node_name (a truthy one only) and refresh the timestamp in the
copy's metadata, append the copy to the thread's history, and return the
checkpoint id thread_id:step_index. The durable persistence branch is
disabled (no storage backend configured). -/
def save_checkpoint (m : StateManager) (node_name : Option String)
    (now : Nat) : StateManager × Except String String :=
  match m.current_state with
  | none => (m, Except.error "No state to checkpoint")
  | some s =>
    let state := (match s.snapshot_metadata with
      | some md =>
        let newName := (match node_name with
          | some n => if n = "" then md.node_name else n
          | none => md.node_name)
        let md2 := { md with node_name := newName, timestamp := now }
        { s with snapshot_metadata := some md2 }
      | none => s)
    let thread_id := state.thread_id
    let step_index : Int := (match state.snapshot_metadata with
      | some md => md.step_index
      | none => 0)
    let checkpoint_id := thread_id ++ ":" ++ toString step_index
    ({ m with checkpoints := cpAppend m.checkpoints thread_id state },
      Except.ok checkpoint_id)

/-- The loop test of rollback: a checkpoint matches when its metadata is
present and carries the requested step index. -/
def matchesStep (step_index : Int) (st : ResearchState) : Bool :=
  match st.snapshot_metadata with
  | some md => md.step_index == step_index
  | none => false

/-- rollback (state.py): find the first checkpoint of the active thread
with the requested step index and make it the new active state; raise
when there is no current state or no matching checkpoint (leaving the
manager unchanged). -/
def rollback (m : StateManager) (step_index : Int) :
    StateManager × Except String ResearchState :=
  match m.current_state with
  | none => (m, Except.error "No current state")
  | some s =>
    let cps := (dGet m.checkpoints s.thread_id).getD []
    match cps.find? (matchesStep step_index) with
    | none =>
      (m, Except.error ("No checkpoint found for step " ++ toString step_index))
    | some target =>
      ({ m with current_state := some target }, Except.ok target)

/-- One row of the list_checkpoints summary. -/
structure CheckpointInfo where
  step_index : Int
  node_name : String
  timestamp : Option Nat
deriving DecidableEq, Repr

/-- list_checkpoints (state.py): summaries of the given (or active)
thread's checkpoint history, in history order; unknown or missing thread
ids give an empty list. -/
def list_checkpoints (m : StateManager) (thread_id : Option String) :
    List CheckpointInfo :=
  let tid := (match thread_id with
    | some t => if t = "" then (m.current_state.map ResearchState.thread_id) else some t
    | none => m.current_state.map ResearchState.thread_id)
  match tid with
  | none => []
  | some t =>
    if t = "" then [] else
    ((dGet m.checkpoints t).getD []).map (fun c =>
      match c.snapshot_metadata with
      | some md => ⟨md.step_index, md.node_name, some md.timestamp⟩
      | none => ⟨0, "unknown", none⟩)

/-- One update_state call: argument pair, append flag, clock reading. -/
def UpdCmd := UpdKV × Bool × Nat

/-- No command of the sequence assigns the snapshot_metadata field. -/
def noMetaCmds (cmds : List UpdCmd) : Bool :=
  cmds.all (fun c => !c.1.isMeta)

/-- Run a sequence of update_state calls, stopping at the first error. -/
def runUpdates (m : StateManager) : List UpdCmd → Except String StateManager
  | [] => Except.ok m
  | c :: rest =>
    match update_state m c.1 c.2.1 c.2.2 with
    | (m1, Except.ok _) => runUpdates m1 rest
    | (_, Except.error e) => Except.error e

/-- Observe an update_state outcome: none when the call raised, otherwise
the step_index of the returned state (itself optional, since the state may
lack metadata). -/
def stepOfResult : Except String ResearchState → Option (Option Int)
  | Except.ok s => some (s.snapshot_metadata.map SnapshotMetadata.step_index)
  | Except.error _ => none

/-! Heap embedding for the aliasing behaviour of the read-only accessors
(state.py: get_state, list_checkpoints, get_evidence_chain). Mutable
Python containers (dicts, lists, pydantic models) live at heap addresses;
immutable values (str, int, float, None, bool, datetime) are primitives.
deepcopy is modelled as reading a value into an ownership tree and writing
the tree back at fresh addresses. -/

/-- Heap address of a mutable object. -/
abbrev Addr := Nat

/-- A Python reference: a primitive immutable value or a reference to a
mutable heap object. datetimes are immutable, so a metadata timestamp is
a primitive (hint). -/
inductive HVal where
  | hnone : HVal
  | hbool : Bool → HVal
  | hint : Int → HVal
  | hnum : ℚ → HVal
  | hstr : String → HVal
  | href : Addr → HVal
deriving DecidableEq, Repr

/-- A mutable heap object: a list or a string-keyed dict. -/
inductive HObj where
  | hlist : List HVal → HObj
  | hdict : List (String × HVal) → HObj
deriving DecidableEq, Repr

/-- The heap: allocated objects and the next fresh address. -/
structure Heap where
  objs : List (Addr × HObj)
  next : Addr
deriving DecidableEq, Repr

/-- Read the object at an address. -/
def heapGet (h : Heap) (a : Addr) : Option HObj :=
  (h.objs.find? (fun e => e.1 == a)).map Prod.snd

/-- Allocate a fresh object, returning its address. -/
def heapAlloc (h : Heap) (o : HObj) : Heap × Addr :=
  (⟨h.objs ++ [(h.next, o)], h.next + 1⟩, h.next)

/-- Replace the object stored at an existing address. -/
def heapUpdate (h : Heap) (a : Addr) (o : HObj) : Heap :=
  ⟨h.objs.map (fun e => if e.1 == a then (a, o) else e), h.next⟩

/-- Mutation d[k] = v through a reference to a dict object. -/
def heapDictSet (h : Heap) (a : Addr) (k : String) (v : HVal) : Heap :=
  match heapGet h a with
  | some (HObj.hdict l) => heapUpdate h a (HObj.hdict (dSet l k v))
  | _ => h

/-- dict.get(k) on the dict object at an address (None when absent). -/
def heapDictGet (h : Heap) (a : Addr) (k : String) : HVal :=
  match heapGet h a with
  | some (HObj.hdict l) => (dGet l k).getD HVal.hnone
  | _ => HVal.hnone

mutual
/-- Fully-owned value tree: the shape deepcopy reads out of the heap. -/
inductive HTree where
  | leaf : HVal → HTree
  | tlist : HTreeList → HTree
  | tdict : HTreeDict → HTree

inductive HTreeList where
  | lnil : HTreeList
  | lcons : HTree → HTreeList → HTreeList

inductive HTreeDict where
  | dnil : HTreeDict
  | dcons : String → HTree → HTreeDict → HTreeDict
end

mutual
/-- Read the value graph below v into an ownership tree; fuel bounds the
reference depth, and a dangling reference or exhausted fuel gives none. -/
def toTree : Nat → Heap → HVal → Option HTree
  | _, _, HVal.hnone => some (HTree.leaf HVal.hnone)
  | _, _, HVal.hbool b => some (HTree.leaf (HVal.hbool b))
  | _, _, HVal.hint i => some (HTree.leaf (HVal.hint i))
  | _, _, HVal.hnum q => some (HTree.leaf (HVal.hnum q))
  | _, _, HVal.hstr s => some (HTree.leaf (HVal.hstr s))
  | 0, _, HVal.href _ => none
  | fuel + 1, h, HVal.href a =>
    match heapGet h a with
    | some (HObj.hlist l) =>
      match toTreeList fuel h l with
      | some ts => some (HTree.tlist ts)
      | none => none
    | some (HObj.hdict l) =>
      match toTreeDict fuel h l with
      | some ts => some (HTree.tdict ts)
      | none => none
    | none => none
termination_by fuel _ _ => (fuel, 0)

def toTreeList : Nat → Heap → List HVal → Option HTreeList
  | _, _, [] => some HTreeList.lnil
  | fuel, h, v :: rest =>
    match toTree fuel h v with
    | some t =>
      match toTreeList fuel h rest with
      | some ts => some (HTreeList.lcons t ts)
      | none => none
    | none => none
termination_by fuel _ l => (fuel, l.length + 1)

def toTreeDict : Nat → Heap → List (String × HVal) → Option HTreeDict
  | _, _, [] => some HTreeDict.dnil
  | fuel, h, (k, v) :: rest =>
    match toTree fuel h v with
    | some t =>
      match toTreeDict fuel h rest with
      | some ts => some (HTreeDict.dcons k t ts)
      | none => none
    | none => none
termination_by fuel _ l => (fuel, l.length + 1)
end

mutual
/-- Write an ownership tree back into the heap, allocating every container
at a fresh address. -/
def writeTree : Heap → HTree → Heap × HVal
  | h, HTree.leaf v => (h, v)
  | h, HTree.tlist ts =>
    let p := writeTreeList h ts
    let q := heapAlloc p.1 (HObj.hlist p.2)
    (q.1, HVal.href q.2)
  | h, HTree.tdict ts =>
    let p := writeTreeDict h ts
    let q := heapAlloc p.1 (HObj.hdict p.2)
    (q.1, HVal.href q.2)

def writeTreeList : Heap → HTreeList → Heap × List HVal
  | h, HTreeList.lnil => (h, [])
  | h, HTreeList.lcons t ts =>
    let p := writeTree h t
    let q := writeTreeList p.1 ts
    (q.1, p.2 :: q.2)

def writeTreeDict : Heap → HTreeDict → Heap × List (String × HVal)
  | h, HTreeDict.dnil => (h, [])
  | h, HTreeDict.dcons k t ts =>
    let p := writeTree h t
    let q := writeTreeDict p.1 ts
    (q.1, (k, p.2) :: q.2)
end

/-- copy.deepcopy of a reference: read out, write back fresh. -/
def deepcopyVal (fuel : Nat) (h : Heap) (v : HVal) : Option (Heap × HVal) :=
  (toTree fuel h v).map (writeTree h)

/-- deepcopy of a dict-valued field (data_store, analytic_metrics,
rules_violations, messages), keeping the address type. -/
def deepcopyAddr (fuel : Nat) (h : Heap) (a : Addr) : Option (Heap × Addr) :=
  match deepcopyVal fuel h (HVal.href a) with
  | some (h2, HVal.href a2) => some (h2, a2)
  | _ => none

/-- Checkpoint metadata scalars read by list_checkpoints. -/
structure MetaH where
  step_index : Int
  node_name : String
  timestamp : Int
deriving DecidableEq, Repr

/-- ResearchState in the heap model: immutable scalars inline, the four
mutable container fields as heap addresses, target as a reference or None. -/
structure ResearchStateH where
  thread_id : String
  query : String
  target : HVal
  data_store : Addr
  analytic_metrics : Addr
  rules_violations : Addr
  messages : Addr
  snapshot_metadata : Option MetaH
deriving DecidableEq, Repr

/-- StateManager in the heap model. -/
structure ManagerH where
  current_state : Option ResearchStateH
  checkpoints : List (String × List ResearchStateH)
deriving DecidableEq, Repr

/-- get_state in the heap model: deepcopy of the current state (every
mutable field copied at fresh addresses), None when uninitialized. -/
def get_state_H (fuel : Nat) (h : Heap) (m : ManagerH) :
    Option (Heap × Option ResearchStateH) :=
  match m.current_state with
  | none => some (h, none)
  | some s =>
    match deepcopyVal fuel h s.target with
    | none => none
    | some (h1, tgt) =>
      match deepcopyAddr fuel h1 s.data_store with
      | none => none
      | some (h2, ds) =>
        match deepcopyAddr fuel h2 s.analytic_metrics with
        | none => none
        | some (h3, am) =>
          match deepcopyAddr fuel h3 s.rules_violations with
          | none => none
          | some (h4, rv) =>
            match deepcopyAddr fuel h4 s.messages with
            | none => none
            | some (h5, ms) =>
              let copy : ResearchStateH :=
                ⟨s.thread_id, s.query, tgt, ds, am, rv, ms, s.snapshot_metadata⟩
              some (h5, some copy)

/-- One message_trace row: a fresh dict holding the message's role,
timestamp and token count (all immutable values read from the message
object). -/
def traceEntry (h : Heap) (msg : HVal) : Heap × HVal :=
  match msg with
  | HVal.href a =>
    match heapGet h a with
    | some (HObj.hdict l) =>
      let row := [("role", (dGet l "role").getD HVal.hnone),
        ("timestamp", (dGet l "timestamp").getD HVal.hnone),
        ("tokens", (dGet l "token_count").getD HVal.hnone)]
      let q := heapAlloc h (HObj.hdict row)
      (q.1, HVal.href q.2)
    | _ =>
      let q := heapAlloc h (HObj.hdict [])
      (q.1, HVal.href q.2)
  | _ =>
    let q := heapAlloc h (HObj.hdict [])
    (q.1, HVal.href q.2)

/-- Build the fresh message_trace list for the messages stored at an
address. -/
def buildTrace (h : Heap) (msgs : List HVal) : Heap × List HVal :=
  match msgs with
  | [] => (h, [])
  | msg :: rest =>
    let p := traceEntry h msg
    let q := buildTrace p.1 rest
    (q.1, p.2 :: q.2)

/-- getattr(state, conclusion_key, None) in the heap model: field values
are returned as references, not copies. -/
def stateGetattr (s : ResearchStateH) (key : String) : HVal :=
  if key = "thread_id" then HVal.hstr s.thread_id
  else if key = "query" then HVal.hstr s.query
  else if key = "target" then s.target
  else if key = "data_store" then HVal.href s.data_store
  else if key = "analytic_metrics" then HVal.href s.analytic_metrics
  else if key = "rules_violations" then HVal.href s.rules_violations
  else if key = "messages" then HVal.href s.messages
  else HVal.hnone

/-- get_evidence_chain in the heap model: a fresh evidence dict whose
entries hold direct references to the state's containers (conclusion,
supporting_metrics, raw_data, target), plus a fresh message_trace. -/
def get_evidence_chain_H (h : Heap) (m : ManagerH) (conclusion_key : String) :
    Heap × HVal :=
  match m.current_state with
  | none =>
    let q := heapAlloc h (HObj.hdict [])
    (q.1, HVal.href q.2)
  | some s =>
    let base := [("conclusion", stateGetattr s conclusion_key),
      ("thread_id", HVal.hstr s.thread_id), ("query", HVal.hstr s.query)]
    let mapped :=
      if conclusion_key = "rules_violations" then
        base ++ [("supporting_metrics", HVal.href s.analytic_metrics),
          ("raw_data", heapDictGet h s.data_store "market_data"),
          ("target", s.target)]
      else if conclusion_key = "analytic_metrics" then
        base ++ [("raw_data", heapDictGet h s.data_store "market_data"),
          ("target", s.target)]
      else base
    let msgVals := (match heapGet h s.messages with
      | some (HObj.hlist l) => l
      | _ => [])
    let tr := buildTrace h msgVals
    let p := heapAlloc tr.1 (HObj.hlist tr.2)
    let entries := mapped ++ [("message_trace", HVal.href p.2)]
    let q := heapAlloc p.1 (HObj.hdict entries)
    (q.1, HVal.href q.2)

/-- list_checkpoints target thread: the explicit argument unless falsy,
else the current state's thread id (Python `thread_id or ...`). -/
def ckTid (m : ManagerH) (thread_id : Option String) : Option String :=
  match thread_id with
  | some t => if t = "" then (m.current_state.map ResearchStateH.thread_id) else some t
  | none => m.current_state.map ResearchStateH.thread_id

/-- One list_checkpoints row: a fresh dict of immutable scalars. -/
def ckRow (c : ResearchStateH) : HObj :=
  match c.snapshot_metadata with
  | some md => HObj.hdict [("step_index", HVal.hint md.step_index),
      ("node_name", HVal.hstr md.node_name),
      ("timestamp", HVal.hint md.timestamp)]
  | none => HObj.hdict [("step_index", HVal.hint 0),
      ("node_name", HVal.hstr "unknown"),
      ("timestamp", HVal.hnone)]

/-- Allocate each row dict, collecting the references in order (the list
comprehension building one fresh dict per checkpoint). -/
def ckFold : List HObj → Heap × List HVal → Heap × List HVal
  | [], acc => acc
  | o :: rest, acc =>
    let q := heapAlloc acc.1 o
    ckFold rest (q.1, acc.2 ++ [HVal.href q.2])

/-- list_checkpoints in the heap model: fresh dicts of immutable scalars,
collected in a fresh list. -/
def list_checkpoints_H (h : Heap) (m : ManagerH) (thread_id : Option String) :
    Heap × Option HVal :=
  match ckTid m thread_id with
  | none => (h, none)
  | some t =>
    if t = "" then (h, none) else
    let rows := ((dGet m.checkpoints t).getD []).map ckRow
    let folded := ckFold rows (h, [])
    let p := heapAlloc folded.1 (HObj.hlist folded.2)
    (p.1, some (HVal.href p.2))

/-- All addresses syntactically below a bound: a primitive passes, a
reference must be ≥ n. -/
def valGe (n : Nat) : HVal → Bool
  | HVal.href a => n ≤ a
  | _ => true

/-- All references of an object ≥ n. -/
def objGe (n : Nat) : HObj → Bool
  | HObj.hlist l => l.all (valGe n)
  | HObj.hdict l => l.all (fun e => valGe n e.2)

/-- All references of a value < n. -/
def valLt (n : Nat) : HVal → Bool
  | HVal.href a => a < n
  | _ => true

/-- All references of an object < n. -/
def objLt (n : Nat) : HObj → Bool
  | HObj.hlist l => l.all (valLt n)
  | HObj.hdict l => l.all (fun e => valLt n e.2)

/-- Heap well-formedness: every allocated address and every stored
reference is below next, so fresh allocations never collide and the
pre-existing object graph is closed below next. -/
def heapWF (h : Heap) : Bool :=
  h.objs.all (fun e => e.1 < h.next && objLt h.next e.2)

/-- The weaker allocation discipline: every allocated address is below
next. -/
def heapDomLt (h : Heap) : Bool :=
  h.objs.all (fun e => e.1 < h.next)

mutual
/-- No leaf of the tree is a reference (the shape toTree produces). -/
def treeLeafOK : HTree → Bool
  | HTree.leaf (HVal.href _) => false
  | HTree.leaf _ => true
  | HTree.tlist ts => treeListLeafOK ts
  | HTree.tdict ts => treeDictLeafOK ts

def treeListLeafOK : HTreeList → Bool
  | HTreeList.lnil => true
  | HTreeList.lcons t ts => treeLeafOK t && treeListLeafOK ts

def treeDictLeafOK : HTreeDict → Bool
  | HTreeDict.dnil => true
  | HTreeDict.dcons _ t ts => treeLeafOK t && treeDictLeafOK ts
end

/-- A state lives below n when all its container addresses and its target
reference do. -/
def stateBelow (n : Nat) (s : ResearchStateH) : Bool :=
  valLt n s.target && s.data_store < n && s.analytic_metrics < n
    && s.rules_violations < n && s.messages < n

/-- A state lives entirely at or above n (a detached copy). -/
def stateGe (n : Nat) (s : ResearchStateH) : Bool :=
  valGe n s.target && n ≤ s.data_store && n ≤ s.analytic_metrics
    && n ≤ s.rules_violations && n ≤ s.messages

/-- One read-only call as a heap transformation: allocation-only growth.
The region below h.next is untouched (so the call mutates nothing the
manager can reach) and every object allocated at or above h.next refers
only to addresses at or above h.next, so the returned structure shares no
mutable object with anything the manager held before the call. -/
def FreshStep (h h2 : Heap) : Prop :=
  heapDomLt h2 = true ∧ h.next ≤ h2.next ∧
  (∀ a, a < h.next → heapGet h2 a = heapGet h a) ∧
  (∀ a o, h.next ≤ a → heapGet h2 a = some o → objGe h.next o = true)

/-! Concrete exemplar inputs used by the example-level theorems and
witnesses. -/

/-- Resolved identity for AAPL. -/
def idAAPL : CompanyIdentity := ⟨"AAPL", "US", "Apple Inc.", "ticker", "AAPL"⟩

/-- The checkpoint-numbering scenario of the spec: init on thread t1,
update target, checkpoint "identify", update query, checkpoint "edit",
with clock readings 0..4. -/
def scenManager : StateManager :=
  let p1 := init_state StateManager.new "AAPL" (some "t1") "u1" "u2" 0
  let p2 := update_state p1.1 (UpdKV.ktarget (some idAAPL)) false 1
  let p3 := save_checkpoint p2.1 (some "identify") 2
  let p4 := update_state p3.1 (UpdKV.kquery "updated") false 3
  let p5 := save_checkpoint p4.1 (some "edit") 4
  p5.1

/-- Exemplar identity for the snapshot determinism example. -/
def identT : CompanyIdentity := ⟨"TEST", "US", "Test Co", "ticker", "test"⟩

/-- Exemplar market data (no bars). -/
def mdT : MarketData := ⟨"TEST", "stooq", "2024-01-02T00:00:00+00:00", []⟩

/-- Exemplar risk metrics with no resolvable values. -/
def riskT : RiskMetrics := ⟨RISK_ALGO_VERSION, ⟨2024, 1, 2⟩, none, none⟩

/-- Exemplar empty rule results. -/
def rulesT : RuleResults := ⟨RISK_RULES_VERSION, []⟩

/-- Technicals with max_drawdown -0.1 and all other indicators null. -/
def techDD10 : TechnicalIndicators :=
  ⟨METRICS_ALGO_VERSION, ⟨2024, 1, 2⟩, none, none, none, some (mkRat (-1) 10)⟩

/-- Technicals with max_drawdown -0.2 and all other indicators null. -/
def techDD20 : TechnicalIndicators :=
  ⟨METRICS_ALGO_VERSION, ⟨2024, 1, 2⟩, none, none, none, some (mkRat (-2) 10)⟩

/-- Technicals with max_drawdown -0.25 and all other indicators null. -/
def techDD25 : TechnicalIndicators :=
  ⟨METRICS_ALGO_VERSION, ⟨2024, 1, 2⟩, none, none, none, some (mkRat (-25) 100)⟩

/-- Snapshot built from the exemplar inputs with max_drawdown -0.1. -/
def snapA : AnalysisSnapshot :=
  build_snapshot identT ⟨2024, 1, 2⟩ mdT [] techDD10 riskT rulesT

/-- Snapshot identical to snapA except max_drawdown -0.2. -/
def snapB : AnalysisSnapshot :=
  build_snapshot identT ⟨2024, 1, 2⟩ mdT [] techDD20 riskT rulesT

/-- Active state for the C2 witness manager. -/
def sW : ResearchState :=
  ⟨"t1", "q2", none, [], [], [], [], some ⟨5, 2, "edit", "t1", 0, 0, none⟩, none⟩

/-- Checkpoint at step 0 for the C2 witness manager. -/
def cpW0 : ResearchState :=
  ⟨"t1", "q0", none, [], [], [], [], some ⟨1, 0, "init", "t1", 0, 0, none⟩, none⟩

/-- Checkpoint at step 1 for the C2 witness manager. -/
def cpW1 : ResearchState :=
  ⟨"t1", "q1", none, [], [], [], [], some ⟨3, 1, "identify", "t1", 0, 0, none⟩, none⟩

/-- The C2 witness manager: active thread t1 with two checkpoints. -/
def mW : StateManager := ⟨some sW, [("t1", [cpW0, cpW1])]⟩

/-- Provider oracle for the C5 witness: returns one bar per calendar day
of the requested range. -/
def provW : ProviderOracle :=
  ⟨"stooq", fun s e => ⟨"TEST", "stooq", "2024-01-05T00:00:00+00:00",
    (daysRange s e).map (fun d => ⟨d, 1, 2, 0, 1, 10⟩)⟩⟩

/-- A cached bar record for the C5 witness. -/
def bvW (d : DateT) (ts : String) : BarVal :=
  ⟨"TEST", d, 1, 2, 0, 1, 10, "stooq", ts⟩

/-- C5 witness cache: hits on 2024-01-02 and 2024-01-03 only. -/
def cacheW : List (String × BarVal) :=
  [(mkey "TEST" ⟨2024, 1, 3⟩, bvW ⟨2024, 1, 3⟩ "2024-01-04T00:00:00+00:00"),
   (mkey "TEST" ⟨2024, 1, 2⟩, bvW ⟨2024, 1, 2⟩ "2024-01-03T00:00:00+00:00")]

/-- Concrete heap for the evidence-chain aliasing example: the current
state's analytic_metrics dict lives at address 0 with one entry x = 1;
data_store at 1, rules_violations at 2, messages at 3. -/
def heapC4 : Heap :=
  ⟨[(0, HObj.hdict [("x", HVal.hnum 1)]), (1, HObj.hdict []),
    (2, HObj.hlist []), (3, HObj.hlist [])], 4⟩

/-- The state over heapC4. -/
def stateC4 : ResearchStateH :=
  ⟨"t1", "q", HVal.hnone, 1, 0, 2, 3, some ⟨0, "init", 0⟩⟩

/-- The manager over heapC4. -/
def mgrC4 : ManagerH := ⟨some stateC4, []⟩

/-! Helper lemmas about the dict model. -/

theorem dGet_cons {β : Type} (k' : String) (v' : β) (rest : List (String × β))
    (k : String) :
    dGet ((k', v') :: rest) k = if (k' == k) then some v' else dGet rest k := by
  by_cases h : (k' == k)
  · rw [if_pos h]
    simp only [dGet]
    rw [List.find?_cons_of_pos _ (by simpa using h)]
    rfl
  · rw [if_neg h]
    simp only [dGet]
    rw [List.find?_cons_of_neg _ (by simpa using h)]

theorem dGet_append {β : Type} (l1 l2 : List (String × β)) (k : String) :
    dGet (l1 ++ l2) k = ((dGet l1 k).or (dGet l2 k)) := by
  simp only [dGet, List.find?_append]
  cases h : l1.find? (fun e => e.1 == k) <;> simp

theorem dGet_map_set_self {β : Type} (l : List (String × β)) (k : String)
    (v : β) (hs : (l.find? (fun x => x.1 == k)).isSome) :
    dGet (l.map (fun x => if (x.1 == k) then (x.1, v) else x)) k = some v := by
  induction l with
  | nil => simp at hs
  | cons f fr ih =>
    by_cases hf : (f.1 == k)
    · simp only [List.map_cons, if_pos hf]
      rw [dGet_cons]
      rw [if_pos hf]
    · rw [List.find?_cons_of_neg _ (by simpa using hf)] at hs
      simp only [List.map_cons, if_neg hf]
      rw [dGet_cons, if_neg hf]
      exact ih hs

theorem dGet_map_set_ne {β : Type} (l : List (String × β)) (k k' : String)
    (v : β) (hne : (k' == k) = false) :
    dGet (l.map (fun x => if (x.1 == k) then (x.1, v) else x)) k' = dGet l k' := by
  induction l with
  | nil => rfl
  | cons f fr ih =>
    by_cases hf : (f.1 == k)
    · have hf1 : f.1 = k := by simpa using hf
      have hkk' : ¬ ((f.1 == k') = true) := by
        rw [beq_eq_false_iff_ne] at hne
        rw [hf1]
        simp only [beq_iff_eq]
        exact fun hk => hne hk.symm
      simp only [List.map_cons, if_pos hf]
      rw [dGet_cons, dGet_cons, if_neg hkk', if_neg hkk']
      exact ih
    · simp only [List.map_cons, if_neg hf]
      rw [dGet_cons, dGet_cons]
      by_cases hfk : (f.1 == k')
      · rw [if_pos hfk, if_pos hfk]
      · rw [if_neg hfk, if_neg hfk]
        exact ih

theorem dGet_dPop_self {β : Type} (l : List (String × β)) (k : String) :
    dGet (dPop l k) k = none := by
  simp only [dGet, dPop]
  rw [List.find?_eq_none.mpr]
  · rfl
  · intro x hx
    have hmem := List.of_mem_filter hx
    simp only [bne_iff_ne, ne_eq] at hmem
    simp only [Bool.not_eq_true, beq_eq_false_iff_ne]
    exact hmem

theorem dGet_singleton_self {β : Type} (k : String) (v : β) :
    dGet [(k, v)] k = some v := by
  rw [dGet_cons]
  simp

theorem dGet_dSet_self {β : Type} (l : List (String × β)) (k : String) (v : β) :
    dGet (dSet l k v) k = some v := by
  unfold dSet
  by_cases hs : (l.find? (fun e => e.1 == k)).isSome
  · rw [if_pos hs]
    exact dGet_map_set_self l k v hs
  · rw [if_neg hs, dGet_append]
    have hnone : dGet l k = none := by
      simp only [dGet]
      rw [Option.not_isSome_iff_eq_none.mp hs]
      rfl
    rw [hnone, dGet_singleton_self]
    rfl

theorem dGet_dSet_ne {β : Type} (l : List (String × β)) (k k' : String) (v : β)
    (hne : (k' == k) = false) :
    dGet (dSet l k v) k' = dGet l k' := by
  unfold dSet
  by_cases hs : (l.find? (fun e => e.1 == k)).isSome
  · rw [if_pos hs]
    exact dGet_map_set_ne l k k' v hne
  · rw [if_neg hs, dGet_append]
    have h1 : dGet [(k, v)] k' = none := by
      rw [dGet_cons]
      rw [if_neg]
      · rfl
      · rw [beq_eq_false_iff_ne] at hne
        simp only [beq_iff_eq]
        exact fun hk => hne hk.symm
    rw [h1]
    cases dGet l k' <;> rfl

/-- C6 — TTL cache get contract of the in-memory backend
(cache/memory_cache.py): a key set with ttl_seconds equal to 0 is
returned unchanged at every later read time and never expires; a key set
with positive ttl is returned exactly as stored at any read time up to
set-time + ttl, and a read strictly after set-time + ttl returns absent
and removes the entry (lazy eviction on read), after which the key reads
as never set. -/
theorem C6_ttl_cache_get_contract (c : InMemoryJSONCache) (t0 : ℚ)
    (key : String) (v : JVal) (ttl t : ℚ)
    (ht0 : 0 ≤ t0) (httl : 0 < ttl) :
    ((InMemoryJSONCache.get_json (InMemoryJSONCache.set_json c t0 key v 0) t key).1
        = some v) ∧
    (t ≤ t0 + ttl →
      (InMemoryJSONCache.get_json (InMemoryJSONCache.set_json c t0 key v ttl) t key).1
        = some v) ∧
    (t0 + ttl < t →
      (InMemoryJSONCache.get_json (InMemoryJSONCache.set_json c t0 key v ttl) t key)
        = (none, ⟨dPop (InMemoryJSONCache.set_json c t0 key v ttl).store key⟩) ∧
      (InMemoryJSONCache.get_json
        ((InMemoryJSONCache.get_json (InMemoryJSONCache.set_json c t0 key v ttl) t key).2)
        t key).1 = none) := by
  have hne : ttl ≠ 0 := ne_of_gt httl
  have hpos : t0 + ttl ≠ 0 := by positivity
  have hstore0 : (InMemoryJSONCache.set_json c t0 key v 0).store
      = dSet c.store key (0, v) := by
    simp [InMemoryJSONCache.set_json]
  have hstore : (InMemoryJSONCache.set_json c t0 key v ttl).store
      = dSet c.store key (t0 + ttl, v) := by
    simp [InMemoryJSONCache.set_json, hne]
  refine ⟨?_, ?_, ?_⟩
  · simp [InMemoryJSONCache.get_json, hstore0, dGet_dSet_self]
  · intro hle
    have hnlt : ¬ (t > t0 + ttl) := not_lt.mpr hle
    simp [InMemoryJSONCache.get_json, hstore, dGet_dSet_self, hnlt]
  · intro hgt
    have hfirst : (InMemoryJSONCache.get_json
        (InMemoryJSONCache.set_json c t0 key v ttl) t key)
        = (none, ⟨dPop (InMemoryJSONCache.set_json c t0 key v ttl).store key⟩) := by
      simp [InMemoryJSONCache.get_json, hstore, dGet_dSet_self, hpos, hgt]
    refine ⟨hfirst, ?_⟩
    rw [hfirst]
    have hnone : dGet (dPop (InMemoryJSONCache.set_json c t0 key v ttl).store key)
        key = none := dGet_dPop_self _ key
    simp [InMemoryJSONCache.get_json, hnone]

/-- C6 witness: concrete instantiation with an empty cache, set at time
100 with ttl 60, reads at 160 (hit) and 161 (expired). -/
theorem C6_ttl_cache_get_contract_witness :
    ((InMemoryJSONCache.get_json
        (InMemoryJSONCache.set_json ⟨[]⟩ 100 "k" (JVal.jint 7) 0) 1000 "k").1
      = some (JVal.jint 7)) ∧
    ((InMemoryJSONCache.get_json
        (InMemoryJSONCache.set_json ⟨[]⟩ 100 "k" (JVal.jint 7) 60) 160 "k").1
      = some (JVal.jint 7)) ∧
    ((InMemoryJSONCache.get_json
        (InMemoryJSONCache.set_json ⟨[]⟩ 100 "k" (JVal.jint 7) 60) 161 "k")
      = (none, ⟨dPop (InMemoryJSONCache.set_json ⟨[]⟩ 100 "k" (JVal.jint 7) 60).store "k"⟩)) := by
  have h := C6_ttl_cache_get_contract ⟨[]⟩ 100 "k" (JVal.jint 7) 60 161
    (by norm_num) (by norm_num)
  have h0 := C6_ttl_cache_get_contract ⟨[]⟩ 100 "k" (JVal.jint 7) 60 160
    (by norm_num) (by norm_num)
  exact ⟨h.1, h0.2.1 (by norm_num), (h.2.2 (by norm_num)).1⟩

/-- C8 — snapshot persistence idempotence (_persist_snapshot in
state.py): persisting the same snapshot into the same directory twice
leaves the filesystem of the first call unchanged (so the existing file's
contents are untouched and no error is raised), and a persist call whose
target file already exists writes nothing at all. -/
theorem C8_persist_snapshot_idempotent (fs : FSState)
    (snapshot : AnalysisSnapshot) (persist_dir : String) :
    (_persist_snapshot (_persist_snapshot fs snapshot persist_dir)
        snapshot persist_dir
      = _persist_snapshot fs snapshot persist_dir) ∧
    (∀ c, dGet fs (persist_dir ++ "/" ++ snapshot.analysis_id ++ ".json") = some c →
      _persist_snapshot fs snapshot persist_dir = fs) := by
  have hnoop : ∀ (fs' : FSState) (c : String),
      dGet fs' (persist_dir ++ "/" ++ snapshot.analysis_id ++ ".json") = some c →
      _persist_snapshot fs' snapshot persist_dir = fs' := by
    intro fs' c hc
    simp only [_persist_snapshot]
    rw [hc]
  constructor
  · have hsome : ∃ c, dGet (_persist_snapshot fs snapshot persist_dir)
        (persist_dir ++ "/" ++ snapshot.analysis_id ++ ".json") = some c := by
      simp only [_persist_snapshot]
      cases h : dGet fs (persist_dir ++ "/" ++ snapshot.analysis_id ++ ".json") with
      | none => exact ⟨json_dumps snapshot.toJ, by simp [dGet_dSet_self]⟩
      | some c => exact ⟨c, h⟩
    obtain ⟨c, hc⟩ := hsome
    exact hnoop _ c hc
  · intro c hc
    exact hnoop fs c hc

/-- C8 witness: a filesystem that already holds the snapshot file is
returned unchanged. -/
theorem C8_persist_snapshot_idempotent_witness :
    _persist_snapshot [("d/" ++ snapA.analysis_id ++ ".json", "old")] snapA "d"
      = [("d/" ++ snapA.analysis_id ++ ".json", "old")] := by
  exact (C8_persist_snapshot_idempotent
    [("d/" ++ snapA.analysis_id ++ ".json", "old")] snapA "d").2 "old"
    (by simp [dGet])

/-- C10 — init_state thread id wiring (state.py): with an explicit
(truthy) thread_id the state and its metadata record that same id; with
thread_id omitted the state's id and the metadata's id come from two
independent uuid4() draws, so whenever the two draws differ the metadata
records a different thread id than the state's own. -/
theorem C10_init_state_thread_ids (m : StateManager) (q : String)
    (tid u1 u2 : String) (now : Nat) (htid : tid ≠ "") :
    ((init_state m q (some tid) u1 u2 now).2.thread_id = tid ∧
      ((init_state m q (some tid) u1 u2 now).2.snapshot_metadata.map
        SnapshotMetadata.thread_id) = some tid) ∧
    ((init_state m q none u1 u2 now).2.thread_id = u1 ∧
      ((init_state m q none u1 u2 now).2.snapshot_metadata.map
        SnapshotMetadata.thread_id) = some u2 ∧
      (u1 ≠ u2 →
        ((init_state m q none u1 u2 now).2.snapshot_metadata.map
          SnapshotMetadata.thread_id) ≠ some ((init_state m q none u1 u2 now).2.thread_id))) := by
  refine ⟨⟨?_, ?_⟩, ?_, ?_, ?_⟩
  · simp [init_state, pyOr, htid]
  · simp [init_state, pyOr, htid]
  · simp [init_state, pyOr]
  · simp [init_state, pyOr]
  · intro hne
    simp only [init_state, pyOr, Option.map_some]
    intro hcon
    exact hne (Option.some.inj hcon).symm

/-! C1 support: an update that does not assign snapshot_metadata leaves
that field untouched before the step bump. -/

theorem applyKV_meta (s s1 : ResearchState) (kv : UpdKV) (ap : Bool)
    (hkv : kv.isMeta = false) (h : applyKV s kv ap = some s1) :
    s1.snapshot_metadata = s.snapshot_metadata := by
  cases kv <;> cases ap <;>
    simp only [applyKV, UpdKV.isMeta, Option.some.injEq, reduceCtorEq] at h hkv <;>
    rw [← h]

theorem update_state_step (m m2 : StateManager) (s s2 : ResearchState)
    (md : SnapshotMetadata) (kv : UpdKV) (ap : Bool) (now : Nat)
    (hkv : kv.isMeta = false) (hcur : m.current_state = some s)
    (hmd : s.snapshot_metadata = some md)
    (h : update_state m kv ap now = (m2, Except.ok s2)) :
    m2.current_state = some s2 ∧
      s2.snapshot_metadata
        = some { md with step_index := md.step_index + 1, timestamp := now } := by
  simp only [update_state, hcur] at h
  cases happ : applyKV s kv ap with
  | none => rw [happ] at h; simp at h
  | some s1 =>
    rw [happ] at h
    have hmeta : s1.snapshot_metadata = some md := by
      rw [applyKV_meta s s1 kv ap hkv happ, hmd]
    simp only [hmeta, Prod.mk.injEq, Except.ok.injEq] at h
    obtain ⟨hm2, hs2⟩ := h
    constructor
    · rw [← hm2, ← hs2]
    · rw [← hs2]

theorem runUpdates_step (cmds : List UpdCmd) :
    ∀ (m m' : StateManager) (s : ResearchState) (md : SnapshotMetadata),
    noMetaCmds cmds = true →
    m.current_state = some s → s.snapshot_metadata = some md →
    runUpdates m cmds = Except.ok m' →
    ∃ s' md', m'.current_state = some s' ∧ s'.snapshot_metadata = some md' ∧
      md'.step_index = md.step_index + cmds.length := by
  induction cmds with
  | nil =>
    intro m m' s md _ hcur hmd hrun
    simp only [runUpdates, Except.ok.injEq] at hrun
    subst hrun
    exact ⟨s, md, hcur, hmd, by simp⟩
  | cons c rest ih =>
    intro m m' s md hnometa hcur hmd hrun
    have hkv : c.1.isMeta = false := by
      simp only [noMetaCmds, List.all_cons, Bool.and_eq_true, Bool.not_eq_true'] at hnometa
      exact hnometa.1
    have hrest : noMetaCmds rest = true := by
      simp only [noMetaCmds, List.all_cons, Bool.and_eq_true] at hnometa
      exact hnometa.2
    simp only [runUpdates] at hrun
    cases hu : update_state m c.1 c.2.1 c.2.2 with
    | mk m1 r =>
      rw [hu] at hrun
      cases r with
      | error e => simp at hrun
      | ok sr =>
        obtain ⟨h1, h2⟩ := update_state_step m m1 s sr md c.1 c.2.1 c.2.2
          hkv hcur hmd hu
        obtain ⟨s', md', hc', hm', hstep⟩ := ih m1 m' sr _ hrest h1 h2 hrun
        refine ⟨s', md', hc', hm', ?_⟩
        rw [hstep]
        simp only [List.length_cons]
        push_cast
        ring

/-- C1 (amended) — update-state step counting (state.py): before
init_state every update_state call fails with the "not initialized"
error; after init_state, every successful update_state call whose key is
not snapshot_metadata increments snapshot_metadata.step_index by exactly
1, so a sequence of N such calls leaves step_index = N. (The original
claim quantified over every key; assigning the snapshot_metadata field
itself replaces the counter — see the counterexample.) -/
theorem C1_step_index_counts_updates (q : String) (tid : Option String)
    (u1 u2 : String) (n0 : Nat) (cmds : List UpdCmd) (m' : StateManager)
    (hnometa : noMetaCmds cmds = true)
    (hrun : runUpdates (init_state StateManager.new q tid u1 u2 n0).1 cmds
      = Except.ok m') :
    (∀ (kv : UpdKV) (ap : Bool) (now : Nat),
      (update_state StateManager.new kv ap now).2
        = Except.error "State not initialized. Call init_state() first.") ∧
    (∃ s' md', m'.current_state = some s' ∧ s'.snapshot_metadata = some md' ∧
      md'.step_index = (cmds.length : Int)) := by
  constructor
  · intro kv ap now
    rfl
  · have h0 := runUpdates_step cmds (init_state StateManager.new q tid u1 u2 n0).1
      m' (init_state StateManager.new q tid u1 u2 n0).2
      ((init_state StateManager.new q tid u1 u2 n0).2.snapshot_metadata.get
        (by simp [init_state]))
      hnometa (by simp [init_state]) (by simp [init_state]) hrun
    obtain ⟨s', md', hc', hm', hstep⟩ := h0
    refine ⟨s', md', hc', hm', ?_⟩
    rw [hstep]
    simp [init_state]

/-- C1 witness: two successful non-metadata updates after init leave
step_index = 2. -/
theorem C1_step_index_counts_updates_witness :
    noMetaCmds [(UpdKV.kquery "a", false, 1), (UpdKV.kquery "b", false, 2)] = true ∧
    (∃ m', runUpdates (init_state StateManager.new "q" (some "t") "u1" "u2" 0).1
        [(UpdKV.kquery "a", false, 1), (UpdKV.kquery "b", false, 2)]
      = Except.ok m' ∧
      (∃ s' md', m'.current_state = some s' ∧ s'.snapshot_metadata = some md' ∧
        md'.step_index = (2 : Int))) := by
  refine ⟨by decide, ⟨_, rfl, ?_⟩⟩
  have h := C1_step_index_counts_updates "q" (some "t") "u1" "u2" 0
    [(UpdKV.kquery "a", false, 1), (UpdKV.kquery "b", false, 2)] _
    (by decide) rfl
  exact h.2

/-- C1 counterexample: after init_state, the single call
update_state("snapshot_metadata", None) succeeds but the resulting state
has no snapshot_metadata at all (the step bump is skipped because the
freshly assigned field is falsy), so its step_index is not 1 as the
original claim requires for N = 1. -/
theorem C1_step_index_counts_updates_counterexample :
    stepOfResult ((update_state
        (init_state StateManager.new "q" (some "t1") "u1" "u2" 0).1
        (UpdKV.ksnapshot_metadata none) false 1).2) = some none ∧
      some (none : Option Int) ≠ some (some (1 : Int)) := by
  exact ⟨rfl, by decide⟩

/-! C2 support: first-match characterization of List.find?. -/

theorem find?_first {α : Type} (p : α → Bool) :
    ∀ (l : List α) (c : α), l.find? p = some c →
    ∃ pre suf, l = pre ++ c :: suf ∧ p c = true ∧ ∀ x ∈ pre, p x = false := by
  intro l
  induction l with
  | nil => intro c h; simp at h
  | cons a rest ih =>
    intro c h
    by_cases ha : p a
    · rw [List.find?_cons_of_pos _ ha] at h
      obtain rfl : a = c := by simpa using h
      exact ⟨[], rest, rfl, ha, by simp⟩
    · rw [List.find?_cons_of_neg _ ha] at h
      obtain ⟨pre, suf, heq, hc, hpre⟩ := ih c h
      refine ⟨a :: pre, suf, by simp [heq], hc, ?_⟩
      intro x hx
      rcases List.mem_cons.mp hx with rfl | hx2
      · simpa using ha
      · exact hpre x hx2

/-- C2 — rollback contract (state.py): with an active state, if some
checkpoint of the active thread matches the requested step index, rollback
installs the first such checkpoint (in history-append order) as the new
active state, returns it, and a subsequent get_state returns a state equal
field-for-field to that checkpoint; if no checkpoint of the thread
matches, rollback raises the "No checkpoint found" error and the manager —
in particular its active state — is unchanged. -/
theorem C2_rollback_contract (m : StateManager) (s : ResearchState)
    (k : Int) (hcur : m.current_state = some s) :
    ((∃ c ∈ (dGet m.checkpoints s.thread_id).getD [], matchesStep k c = true) →
      ∃ c pre suf,
        (dGet m.checkpoints s.thread_id).getD [] = pre ++ c :: suf ∧
        matchesStep k c = true ∧ (∀ x ∈ pre, matchesStep k x = false) ∧
        rollback m k = ({ m with current_state := some c }, Except.ok c) ∧
        get_state ({ m with current_state := some c }) = some c) ∧
    ((∀ c ∈ (dGet m.checkpoints s.thread_id).getD [], matchesStep k c = false) →
      rollback m k
        = (m, Except.error ("No checkpoint found for step " ++ toString k))) := by
  constructor
  · rintro ⟨c0, hc0mem, hc0⟩
    have hsome : (((dGet m.checkpoints s.thread_id).getD []).find?
        (matchesStep k)).isSome := List.find?_isSome.mpr ⟨c0, hc0mem, hc0⟩
    obtain ⟨c, hfind⟩ := Option.isSome_iff_exists.mp hsome
    obtain ⟨pre, suf, heq, hc, hpre⟩ := find?_first (matchesStep k) _ c hfind
    refine ⟨c, pre, suf, heq, hc, hpre, ?_, rfl⟩
    simp only [rollback, hcur, hfind]
  · intro hall
    have hnone : (((dGet m.checkpoints s.thread_id).getD []).find?
        (matchesStep k)) = none :=
      List.find?_eq_none.mpr (fun x hx => by simp [hall x hx])
    simp only [rollback, hcur, hnone]

/-- C2 witness: on the concrete manager, a matching step yields the first
matching checkpoint and a missing step yields the not-found error. -/
theorem C2_rollback_contract_witness :
    (∃ c pre suf,
      (dGet mW.checkpoints sW.thread_id).getD [] = pre ++ c :: suf ∧
      matchesStep 0 c = true ∧ (∀ x ∈ pre, matchesStep 0 x = false) ∧
      rollback mW 0 = ({ mW with current_state := some c }, Except.ok c) ∧
      get_state ({ mW with current_state := some c }) = some c) ∧
    rollback mW 5 = (mW, Except.error ("No checkpoint found for step " ++ toString (5 : Int))) := by
  constructor
  · exact (C2_rollback_contract mW sW 0 rfl).1
      ⟨cpW0, by simp [mW, sW, dGet_cons], rfl⟩
  · refine (C2_rollback_contract mW sW 5 rfl).2 ?_
    intro c hc
    have : (dGet mW.checkpoints sW.thread_id).getD [] = [cpW0, cpW1] := by
      simp [mW, sW, dGet_cons]
    rw [this] at hc
    rcases List.mem_cons.mp hc with rfl | hc2
    · rfl
    · rcases List.mem_cons.mp hc2 with rfl | hc3
      · rfl
      · exact absurd hc3 (List.not_mem_nil c)

/-- C9 (amended) — checkpoint numbering scenario (state.py): in the
scenario init("AAPL","t1"); update(target); save("identify");
update(query); save("edit"), each update increments step_index before the
following save, so the two saved checkpoints are "identify" at step 1 and
"edit" at step 2; rollback(1) succeeds and restores the identify
checkpoint (query "AAPL", the stored target, step_index 1) as active
state. (The spec placed the checkpoints at steps 0 and 1 and rolled back
to 0 — see the counterexample.) -/
theorem C9_checkpoint_numbering_scenario :
    (list_checkpoints scenManager (some "t1"))
      = [⟨1, "identify", some 2⟩, ⟨2, "edit", some 4⟩] ∧
    (∃ s, (rollback scenManager 1).2 = Except.ok s ∧
      s.query = "AAPL" ∧ s.target = some idAAPL ∧
      (s.snapshot_metadata.map SnapshotMetadata.step_index) = some 1 ∧
      (rollback scenManager 1).1.current_state = some s) := by
  exact ⟨rfl, ⟨_, rfl, rfl, rfl, rfl, rfl⟩⟩

/-- C9 counterexample: in the exact scenario, rollback(0) raises "No
checkpoint found for step 0" (the claim requires it to succeed with
step_index 0), and the two checkpoints are listed at steps 1 and 2, not 0
and 1. -/
theorem C9_checkpoint_numbering_scenario_counterexample :
    (rollback scenManager 0).2
      = Except.error "No checkpoint found for step 0" ∧
    (list_checkpoints scenManager (some "t1")).map
        (fun c => (c.step_index, c.node_name))
      = [(1, "identify"), (2, "edit")] := by
  exact ⟨rfl, rfl⟩

/-! C7 support. -/

theorem evalRules_eq_filterMap (ctx : JVal) :
    ∀ (rules : List RiskRule) (flags : List RiskFlag),
    evalRules ctx rules = Except.ok flags →
    flags = rules.filterMap (ruleOutcome ctx) := by
  intro rules
  induction rules with
  | nil =>
    intro flags h
    simp only [evalRules, Except.ok.injEq] at h
    simp [← h]
  | cons rule rest ih =>
    intro flags h
    rw [List.filterMap_cons]
    cases hf : _get_field ctx rule.field with
    | none =>
      simp only [evalRules, hf] at h
      simp [ruleOutcome, hf, ih flags h]
    | some v =>
      simp only [evalRules, hf] at h
      by_cases hnull : v.isNull
      · rw [if_pos hnull] at h
        simp [ruleOutcome, hf, hnull, ih flags h]
      · rw [if_neg hnull] at h
        cases hpf : pyFloat v with
        | error e => simp [hpf] at h
        | ok x =>
          simp only [hpf] at h
          cases hc : _compare x rule.op rule.threshold with
          | error e => simp [hc] at h
          | ok b2 =>
            simp only [hc] at h
            cases hrest : evalRules ctx rest with
            | error e => simp [hrest] at h
            | ok fl =>
              simp only [hrest, Except.ok.injEq] at h
              subst h
              cases b2 <;> simp [ruleOutcome, hf, hnull, hpf, hc, ih fl hrest]

theorem exists_ok_of_isOk {ε α : Type} (e : Except ε α) (h : e.isOk = true) :
    ∃ a, e = Except.ok a := by
  cases e with
  | error e => simp [Except.isOk, Except.toBool] at h
  | ok a => exact ⟨a, rfl⟩

theorem evalRules_table_ok (t : TechnicalIndicators) (r : RiskMetrics) :
    ∃ flags, evalRules (ctxOf t r) RISK_RULES_V1 = Except.ok flags := by
  apply exists_ok_of_isOk
  obtain ⟨tav, tas, m20, m50, vol, mdd⟩ := t
  obtain ⟨rav, ras, sh, var⟩ := r
  cases mdd <;> cases vol <;> cases sh <;> cases var <;> rfl

/-- C7 — rule engine evaluation (rules.py): for every technicals/risk
input the engine returns (without error) the rule-version-stamped flag
list obtained by scanning RISK_RULES_V1 in declaration order, skipping
every rule whose dotted field path is unresolved or null, and emitting,
for a resolved rule, exactly the evidenced flag when op(value, threshold)
holds (ruleOutcome spells out that per-rule contract, ruleFlag the
field/value/threshold evidence). In particular max_drawdown -0.25 against
the <= -0.2 rule yields exactly one flag whose evidence value is -0.25,
and max_drawdown -0.1 yields no flag. -/
theorem C7_rule_engine_evaluation (t : TechnicalIndicators) (r : RiskMetrics) :
    (apply_risk_rules t r
      = Except.ok ⟨RISK_RULES_VERSION,
          RISK_RULES_V1.filterMap (ruleOutcome (ctxOf t r))⟩) ∧
    (∃ res, apply_risk_rules techDD25 riskT = Except.ok res ∧
      res.flags.map RiskFlag.code = ["DRAWDOWN_HIGH"] ∧
      res.flags.map (fun f => dGet f.evidence "value")
        = [some (JVal.jnum (mkRat (-25) 100))] ∧
      res.flags.map (fun f => dGet f.evidence "field")
        = [some (JVal.jstr "technicals.max_drawdown")] ∧
      res.flags.map (fun f => dGet f.evidence "threshold")
        = [some (JVal.jnum (mkRat (-2) 10))]) ∧
    (∃ res, apply_risk_rules techDD10 riskT = Except.ok res ∧ res.flags = []) := by
  refine ⟨?_, ⟨_, rfl, ?_, ?_, ?_, ?_⟩, ⟨_, rfl, by norm_num <;> decide⟩⟩
  · obtain ⟨flags, hev⟩ := evalRules_table_ok t r
    have hflags := evalRules_eq_filterMap (ctxOf t r) RISK_RULES_V1 flags hev
    simp only [apply_risk_rules, hev, hflags]
  all_goals norm_num [ruleFlag, dGet_cons]
  all_goals repeat
    first
    | rfl
    | (intro h; exact absurd h (by decide))
    | constructor

/-! C3 support: the code-point order on strings is a total order, so
key-sorted serialization is invariant under permutation of dict entries. -/

theorem charLe_total : ∀ (as bs : List Char),
    charListLe as bs = true ∨ charListLe bs as = true := by
  intro as
  induction as with
  | nil => intro bs; left; rfl
  | cons a as ih =>
    intro bs
    cases bs with
    | nil => right; rfl
    | cons b bs =>
      simp only [charListLe]
      by_cases hab : a.toNat < b.toNat
      · left; rw [if_pos hab]
      · by_cases hba : b.toNat < a.toNat
        · right; rw [if_pos hba]
        · rw [if_neg hab, if_neg hba, if_neg hba, if_neg hab]
          exact ih bs

theorem charLe_trans : ∀ (as bs cs : List Char),
    charListLe as bs = true → charListLe bs cs = true →
    charListLe as cs = true := by
  intro as
  induction as with
  | nil => intro bs cs h1 h2; rfl
  | cons a as ih =>
    intro bs cs h1 h2
    cases bs with
    | nil => simp [charListLe] at h1
    | cons b bs =>
      cases cs with
      | nil => simp [charListLe] at h2
      | cons c cs =>
        simp only [charListLe] at h1 h2 ⊢
        by_cases hab : a.toNat < b.toNat
        · by_cases hbc : b.toNat < c.toNat
          · rw [if_pos (by omega)]
          · by_cases hcb : c.toNat < b.toNat
            · rw [if_neg hbc, if_pos hcb] at h2
              simp at h2
            · rw [if_pos (by omega)]
        · by_cases hba : b.toNat < a.toNat
          · rw [if_neg hab, if_pos hba] at h1
            simp at h1
          · rw [if_neg hab, if_neg hba] at h1
            by_cases hbc : b.toNat < c.toNat
            · rw [if_pos (by omega)]
            · by_cases hcb : c.toNat < b.toNat
              · rw [if_neg hbc, if_pos hcb] at h2
                simp at h2
              · rw [if_neg hbc, if_neg hcb] at h2
                rw [if_neg (by omega), if_neg (by omega)]
                exact ih bs cs h1 h2

theorem charLe_antisymm : ∀ (as bs : List Char),
    charListLe as bs = true → charListLe bs as = true → as = bs := by
  intro as
  induction as with
  | nil =>
    intro bs h1 h2
    cases bs with
    | nil => rfl
    | cons b bs => simp [charListLe] at h2
  | cons a as ih =>
    intro bs h1 h2
    cases bs with
    | nil => simp [charListLe] at h1
    | cons b bs =>
      simp only [charListLe] at h1 h2
      by_cases hab : a.toNat < b.toNat
      · rw [if_neg (by omega), if_pos hab] at h2
        simp at h2
      · by_cases hba : b.toNat < a.toNat
        · rw [if_neg hab, if_pos hba] at h1
          simp at h1
        · rw [if_neg hab, if_neg hba] at h1
          rw [if_neg hba, if_neg hab] at h2
          have hchar : a = b := by
            have : a.toNat = b.toNat := by omega
            simpa [Char.ext_iff, UInt32.ext_iff] using this
          rw [hchar, ih bs h1 h2]

theorem strLeB_total (a b : String) : strLeB a b = true ∨ strLeB b a = true :=
  charLe_total a.data b.data

theorem strLeB_trans (a b c : String) (h1 : strLeB a b = true)
    (h2 : strLeB b c = true) : strLeB a c = true :=
  charLe_trans a.data b.data c.data h1 h2

theorem strLeB_antisymm (a b : String) (h1 : strLeB a b = true)
    (h2 : strLeB b a = true) : a = b :=
  String.ext (charLe_antisymm a.data b.data h1 h2)

theorem jstableObj_map (l : List (String × JVal)) :
    jstableObj l = l.map (fun e => (e.1, jstable e.2)) := by
  induction l with
  | nil => rfl
  | cons e rest ih => cases e; simp [jstableObj, ih]

theorem insertionSort_key_eq (l1 l2 : List (String × JVal))
    (hperm : l1.Perm l2) (hnd : (l1.map Prod.fst).Nodup) :
    List.insertionSort (fun a b => strLeB a.1 b.1) l1
      = List.insertionSort (fun a b => strLeB a.1 b.1) l2 := by
  haveI : IsTotal (String × JVal) (fun a b => strLeB a.1 b.1 = true) :=
    ⟨fun a b => strLeB_total a.1 b.1⟩
  haveI : IsTrans (String × JVal) (fun a b => strLeB a.1 b.1 = true) :=
    ⟨fun a b c => strLeB_trans a.1 b.1 c.1⟩
  haveI : IsAntisymm (String × JVal)
      (fun a b => strLeB a.1 b.1 = true ∧ a.1 ≠ b.1) :=
    ⟨fun a b h1 h2 => absurd (strLeB_antisymm a.1 b.1 h1.1 h2.1) h1.2⟩
  have hp : (List.insertionSort (fun a b => strLeB a.1 b.1) l1).Perm
      (List.insertionSort (fun a b => strLeB a.1 b.1) l2) :=
    ((List.perm_insertionSort _ l1).trans hperm).trans
      (List.perm_insertionSort _ l2).symm
  have hnd2 : (l2.map Prod.fst).Nodup := ((hperm.map Prod.fst).nodup_iff).mp hnd
  have hsorted : ∀ (l : List (String × JVal)), (l.map Prod.fst).Nodup →
      List.Sorted (fun a b => strLeB a.1 b.1 = true ∧ a.1 ≠ b.1)
        (List.insertionSort (fun a b => strLeB a.1 b.1) l) := by
    intro l hndl
    have hs : List.Sorted (fun a b => strLeB a.1 b.1 = true)
        (List.insertionSort (fun a b => strLeB a.1 b.1) l) :=
      List.sorted_insertionSort _ l
    have hndsort : ((List.insertionSort (fun a b => strLeB a.1 b.1) l).map
        Prod.fst).Nodup :=
      (((List.perm_insertionSort (fun a b => strLeB a.1 b.1) l).map
        Prod.fst).nodup_iff).mpr hndl
    have hpw : List.Pairwise (fun a b : String × JVal => a.1 ≠ b.1)
        (List.insertionSort (fun a b => strLeB a.1 b.1) l) := by
      rw [List.Nodup, List.pairwise_map] at hndsort
      exact hndsort
    exact List.Pairwise.and hs hpw
  exact List.eq_of_perm_of_sorted hp (hsorted l1 hnd) (hsorted l2 hnd2)

theorem canonical_dumps_perm (l1 l2 : List (String × JVal))
    (hperm : l1.Perm l2) (hnd : (l1.map Prod.fst).Nodup) :
    canonical_dumps (JVal.jobj l1) = canonical_dumps (JVal.jobj l2) := by
  unfold canonical_dumps
  have hstable : jstable (JVal.jobj l1) = jstable (JVal.jobj l2) := by
    simp only [jstable, jstableObj_map]
    rw [insertionSort_key_eq (l1.map (fun e => (e.1, jstable e.2)))
      (l2.map (fun e => (e.1, jstable e.2))) (hperm.map _)]
    have : (l1.map (fun e => (e.1, jstable e.2))).map Prod.fst
        = l1.map Prod.fst := by
      simp [List.map_map]
    rw [this]
    exact hnd
  rw [hstable]


/-- utf8 encoding distributes over string concatenation. -/
theorem utf8Bytes_append (a b : String) :
    utf8Bytes (a ++ b) = utf8Bytes a ++ utf8Bytes b := by
  simp only [utf8Bytes, String.data_append]
  induction a.data with
  | nil => rfl
  | cons c cs ih =>
    simp only [List.cons_append, List.flatMap_cons, ih, List.append_assoc]

set_option maxRecDepth 100000 in
theorem utf8chunk_1 : utf8Bytes "\x7b\"algo_versions\":\x7b\"metrics\":\"metrics_v1.0.0\",\"risk\":\"risk_v1.0.0\",\"rules\":\"risk_rules_v1\"\x7d,\"as_of\":\"" = [123, 34, 97, 108, 103, 111, 95, 118, 101, 114, 115, 105, 111, 110, 115, 34, 58, 123, 34, 109, 101, 116, 114, 105, 99, 115, 34, 58, 34, 109, 101, 116, 114, 105, 99, 115, 95, 118, 49, 46, 48, 46, 48, 34, 44, 34, 114, 105, 115, 107, 34, 58, 34, 114, 105, 115, 107, 95, 118, 49, 46, 48, 46, 48, 34, 44, 34, 114, 117, 108, 101, 115, 34, 58, 34, 114, 105, 115, 107, 95, 114, 117, 108, 101, 115, 95, 118, 49, 34, 125, 44, 34, 97, 115, 95, 111, 102, 34, 58, 34] := rfl

set_option maxRecDepth 100000 in
theorem utf8chunk_2 : utf8Bytes "2024-01-02\",\"company_name\":\"Test Co\",\"data_timestamps\":\x7b\"financials\":\"2024-01-02T00:00:00+00:00\",\"ma" = [50, 48, 50, 52, 45, 48, 49, 45, 48, 50, 34, 44, 34, 99, 111, 109, 112, 97, 110, 121, 95, 110, 97, 109, 101, 34, 58, 34, 84, 101, 115, 116, 32, 67, 111, 34, 44, 34, 100, 97, 116, 97, 95, 116, 105, 109, 101, 115, 116, 97, 109, 112, 115, 34, 58, 123, 34, 102, 105, 110, 97, 110, 99, 105, 97, 108, 115, 34, 58, 34, 50, 48, 50, 52, 45, 48, 49, 45, 48, 50, 84, 48, 48, 58, 48, 48, 58, 48, 48, 43, 48, 48, 58, 48, 48, 34, 44, 34, 109, 97] := rfl

set_option maxRecDepth 100000 in
theorem utf8chunk_3 : utf8Bytes "rket_data\":\"2024-01-02T00:00:00+00:00\"\x7d,\"financials\":[],\"identity\":\x7b\"company_name\":\"Test Co\",\"market" = [114, 107, 101, 116, 95, 100, 97, 116, 97, 34, 58, 34, 50, 48, 50, 52, 45, 48, 49, 45, 48, 50, 84, 48, 48, 58, 48, 48, 58, 48, 48, 43, 48, 48, 58, 48, 48, 34, 125, 44, 34, 102, 105, 110, 97, 110, 99, 105, 97, 108, 115, 34, 58, 91, 93, 44, 34, 105, 100, 101, 110, 116, 105, 116, 121, 34, 58, 123, 34, 99, 111, 109, 112, 97, 110, 121, 95, 110, 97, 109, 101, 34, 58, 34, 84, 101, 115, 116, 32, 67, 111, 34, 44, 34, 109, 97, 114, 107, 101, 116] := rfl

set_option maxRecDepth 100000 in
theorem utf8chunk_4 : utf8Bytes "\":\"US\",\"matched_on\":\"ticker\",\"query\":\"test\",\"symbol\":\"TEST\"\x7d,\"market\":\"US\",\"market_data\":\x7b\"bars\":[]," = [34, 58, 34, 85, 83, 34, 44, 34, 109, 97, 116, 99, 104, 101, 100, 95, 111, 110, 34, 58, 34, 116, 105, 99, 107, 101, 114, 34, 44, 34, 113, 117, 101, 114, 121, 34, 58, 34, 116, 101, 115, 116, 34, 44, 34, 115, 121, 109, 98, 111, 108, 34, 58, 34, 84, 69, 83, 84, 34, 125, 44, 34, 109, 97, 114, 107, 101, 116, 34, 58, 34, 85, 83, 34, 44, 34, 109, 97, 114, 107, 101, 116, 95, 100, 97, 116, 97, 34, 58, 123, 34, 98, 97, 114, 115, 34, 58, 91, 93, 44] := rfl

set_option maxRecDepth 100000 in
theorem utf8chunk_5 : utf8Bytes "\"data_timestamp\":\"2024-01-02T00:00:00+00:00\",\"source\":\"stooq\",\"symbol\":\"TEST\"\x7d,\"risk\":\x7b\"algo_version" = [34, 100, 97, 116, 97, 95, 116, 105, 109, 101, 115, 116, 97, 109, 112, 34, 58, 34, 50, 48, 50, 52, 45, 48, 49, 45, 48, 50, 84, 48, 48, 58, 48, 48, 58, 48, 48, 43, 48, 48, 58, 48, 48, 34, 44, 34, 115, 111, 117, 114, 99, 101, 34, 58, 34, 115, 116, 111, 111, 113, 34, 44, 34, 115, 121, 109, 98, 111, 108, 34, 58, 34, 84, 69, 83, 84, 34, 125, 44, 34, 114, 105, 115, 107, 34, 58, 123, 34, 97, 108, 103, 111, 95, 118, 101, 114, 115, 105, 111, 110] := rfl

set_option maxRecDepth 100000 in
theorem utf8chunk_6 : utf8Bytes "\":\"risk_v1.0.0\",\"as_of\":\"2024-01-02\",\"sharpe_20\":null,\"var_95_20\":null\x7d,\"rules\":\x7b\"flags\":[],\"rule_ve" = [34, 58, 34, 114, 105, 115, 107, 95, 118, 49, 46, 48, 46, 48, 34, 44, 34, 97, 115, 95, 111, 102, 34, 58, 34, 50, 48, 50, 52, 45, 48, 49, 45, 48, 50, 34, 44, 34, 115, 104, 97, 114, 112, 101, 95, 50, 48, 34, 58, 110, 117, 108, 108, 44, 34, 118, 97, 114, 95, 57, 53, 95, 50, 48, 34, 58, 110, 117, 108, 108, 125, 44, 34, 114, 117, 108, 101, 115, 34, 58, 123, 34, 102, 108, 97, 103, 115, 34, 58, 91, 93, 44, 34, 114, 117, 108, 101, 95, 118, 101] := rfl

set_option maxRecDepth 100000 in
theorem utf8chunk_7 : utf8Bytes "rsion\":\"risk_rules_v1\"\x7d,\"symbol\":\"TEST\",\"technicals\":\x7b\"algo_version\":\"metrics_v1.0.0\",\"as_of\":\"2024-" = [114, 115, 105, 111, 110, 34, 58, 34, 114, 105, 115, 107, 95, 114, 117, 108, 101, 115, 95, 118, 49, 34, 125, 44, 34, 115, 121, 109, 98, 111, 108, 34, 58, 34, 84, 69, 83, 84, 34, 44, 34, 116, 101, 99, 104, 110, 105, 99, 97, 108, 115, 34, 58, 123, 34, 97, 108, 103, 111, 95, 118, 101, 114, 115, 105, 111, 110, 34, 58, 34, 109, 101, 116, 114, 105, 99, 115, 95, 118, 49, 46, 48, 46, 48, 34, 44, 34, 97, 115, 95, 111, 102, 34, 58, 34, 50, 48, 50, 52, 45] := rfl

set_option maxRecDepth 100000 in
theorem utf8chunkA_8 : utf8Bytes "01-02\",\"ma_20\":null,\"ma_50\":null,\"max_drawdown\":-0.1,\"volatility_20\":null\x7d\x7d" = [48, 49, 45, 48, 50, 34, 44, 34, 109, 97, 95, 50, 48, 34, 58, 110, 117, 108, 108, 44, 34, 109, 97, 95, 53, 48, 34, 58, 110, 117, 108, 108, 44, 34, 109, 97, 120, 95, 100, 114, 97, 119, 100, 111, 119, 110, 34, 58, 45, 48, 46, 49, 44, 34, 118, 111, 108, 97, 116, 105, 108, 105, 116, 121, 95, 50, 48, 34, 58, 110, 117, 108, 108, 125, 125] := rfl

set_option maxRecDepth 100000 in
theorem utf8chunkB_8 : utf8Bytes "01-02\",\"ma_20\":null,\"ma_50\":null,\"max_drawdown\":-0.2,\"volatility_20\":null\x7d\x7d" = [48, 49, 45, 48, 50, 34, 44, 34, 109, 97, 95, 50, 48, 34, 58, 110, 117, 108, 108, 44, 34, 109, 97, 95, 53, 48, 34, 58, 110, 117, 108, 108, 44, 34, 109, 97, 120, 95, 100, 114, 97, 119, 100, 111, 119, 110, 34, 58, 45, 48, 46, 50, 44, 34, 118, 111, 108, 97, 116, 105, 108, 105, 116, 121, 95, 50, 48, 34, 58, 110, 117, 108, 108, 125, 125] := rfl

set_option maxRecDepth 100000 in
set_option maxHeartbeats 4000000 in
theorem sha_seedA : sha256hex ([123, 34, 97, 108, 103, 111, 95, 118, 101, 114, 115, 105, 111, 110, 115, 34, 58, 123, 34, 109, 101, 116, 114, 105, 99, 115, 34, 58, 34, 109, 101, 116, 114, 105, 99, 115, 95, 118, 49, 46, 48, 46, 48, 34, 44, 34, 114, 105, 115, 107, 34, 58, 34, 114, 105, 115, 107, 95, 118, 49, 46, 48, 46, 48, 34, 44, 34, 114, 117, 108, 101, 115, 34, 58, 34, 114, 105, 115, 107, 95, 114, 117, 108, 101, 115, 95, 118, 49, 34, 125, 44, 34, 97, 115, 95, 111, 102, 34, 58, 34] ++ ([50, 48, 50, 52, 45, 48, 49, 45, 48, 50, 34, 44, 34, 99, 111, 109, 112, 97, 110, 121, 95, 110, 97, 109, 101, 34, 58, 34, 84, 101, 115, 116, 32, 67, 111, 34, 44, 34, 100, 97, 116, 97, 95, 116, 105, 109, 101, 115, 116, 97, 109, 112, 115, 34, 58, 123, 34, 102, 105, 110, 97, 110, 99, 105, 97, 108, 115, 34, 58, 34, 50, 48, 50, 52, 45, 48, 49, 45, 48, 50, 84, 48, 48, 58, 48, 48, 58, 48, 48, 43, 48, 48, 58, 48, 48, 34, 44, 34, 109, 97] ++ ([114, 107, 101, 116, 95, 100, 97, 116, 97, 34, 58, 34, 50, 48, 50, 52, 45, 48, 49, 45, 48, 50, 84, 48, 48, 58, 48, 48, 58, 48, 48, 43, 48, 48, 58, 48, 48, 34, 125, 44, 34, 102, 105, 110, 97, 110, 99, 105, 97, 108, 115, 34, 58, 91, 93, 44, 34, 105, 100, 101, 110, 116, 105, 116, 121, 34, 58, 123, 34, 99, 111, 109, 112, 97, 110, 121, 95, 110, 97, 109, 101, 34, 58, 34, 84, 101, 115, 116, 32, 67, 111, 34, 44, 34, 109, 97, 114, 107, 101, 116] ++ ([34, 58, 34, 85, 83, 34, 44, 34, 109, 97, 116, 99, 104, 101, 100, 95, 111, 110, 34, 58, 34, 116, 105, 99, 107, 101, 114, 34, 44, 34, 113, 117, 101, 114, 121, 34, 58, 34, 116, 101, 115, 116, 34, 44, 34, 115, 121, 109, 98, 111, 108, 34, 58, 34, 84, 69, 83, 84, 34, 125, 44, 34, 109, 97, 114, 107, 101, 116, 34, 58, 34, 85, 83, 34, 44, 34, 109, 97, 114, 107, 101, 116, 95, 100, 97, 116, 97, 34, 58, 123, 34, 98, 97, 114, 115, 34, 58, 91, 93, 44] ++ ([34, 100, 97, 116, 97, 95, 116, 105, 109, 101, 115, 116, 97, 109, 112, 34, 58, 34, 50, 48, 50, 52, 45, 48, 49, 45, 48, 50, 84, 48, 48, 58, 48, 48, 58, 48, 48, 43, 48, 48, 58, 48, 48, 34, 44, 34, 115, 111, 117, 114, 99, 101, 34, 58, 34, 115, 116, 111, 111, 113, 34, 44, 34, 115, 121, 109, 98, 111, 108, 34, 58, 34, 84, 69, 83, 84, 34, 125, 44, 34, 114, 105, 115, 107, 34, 58, 123, 34, 97, 108, 103, 111, 95, 118, 101, 114, 115, 105, 111, 110] ++ ([34, 58, 34, 114, 105, 115, 107, 95, 118, 49, 46, 48, 46, 48, 34, 44, 34, 97, 115, 95, 111, 102, 34, 58, 34, 50, 48, 50, 52, 45, 48, 49, 45, 48, 50, 34, 44, 34, 115, 104, 97, 114, 112, 101, 95, 50, 48, 34, 58, 110, 117, 108, 108, 44, 34, 118, 97, 114, 95, 57, 53, 95, 50, 48, 34, 58, 110, 117, 108, 108, 125, 44, 34, 114, 117, 108, 101, 115, 34, 58, 123, 34, 102, 108, 97, 103, 115, 34, 58, 91, 93, 44, 34, 114, 117, 108, 101, 95, 118, 101] ++ ([114, 115, 105, 111, 110, 34, 58, 34, 114, 105, 115, 107, 95, 114, 117, 108, 101, 115, 95, 118, 49, 34, 125, 44, 34, 115, 121, 109, 98, 111, 108, 34, 58, 34, 84, 69, 83, 84, 34, 44, 34, 116, 101, 99, 104, 110, 105, 99, 97, 108, 115, 34, 58, 123, 34, 97, 108, 103, 111, 95, 118, 101, 114, 115, 105, 111, 110, 34, 58, 34, 109, 101, 116, 114, 105, 99, 115, 95, 118, 49, 46, 48, 46, 48, 34, 44, 34, 97, 115, 95, 111, 102, 34, 58, 34, 50, 48, 50, 52, 45] ++ ([48, 49, 45, 48, 50, 34, 44, 34, 109, 97, 95, 50, 48, 34, 58, 110, 117, 108, 108, 44, 34, 109, 97, 95, 53, 48, 34, 58, 110, 117, 108, 108, 44, 34, 109, 97, 120, 95, 100, 114, 97, 119, 100, 111, 119, 110, 34, 58, 45, 48, 46, 49, 44, 34, 118, 111, 108, 97, 116, 105, 108, 105, 116, 121, 95, 50, 48, 34, 58, 110, 117, 108, 108, 125, 125]))))))))
    = "e8a4664dae87dca2e8d2b7d7b9124c60984b695226f7bdcb86d839809a740b64" := rfl

set_option maxRecDepth 100000 in
set_option maxHeartbeats 4000000 in
theorem sha_seedB : sha256hex ([123, 34, 97, 108, 103, 111, 95, 118, 101, 114, 115, 105, 111, 110, 115, 34, 58, 123, 34, 109, 101, 116, 114, 105, 99, 115, 34, 58, 34, 109, 101, 116, 114, 105, 99, 115, 95, 118, 49, 46, 48, 46, 48, 34, 44, 34, 114, 105, 115, 107, 34, 58, 34, 114, 105, 115, 107, 95, 118, 49, 46, 48, 46, 48, 34, 44, 34, 114, 117, 108, 101, 115, 34, 58, 34, 114, 105, 115, 107, 95, 114, 117, 108, 101, 115, 95, 118, 49, 34, 125, 44, 34, 97, 115, 95, 111, 102, 34, 58, 34] ++ ([50, 48, 50, 52, 45, 48, 49, 45, 48, 50, 34, 44, 34, 99, 111, 109, 112, 97, 110, 121, 95, 110, 97, 109, 101, 34, 58, 34, 84, 101, 115, 116, 32, 67, 111, 34, 44, 34, 100, 97, 116, 97, 95, 116, 105, 109, 101, 115, 116, 97, 109, 112, 115, 34, 58, 123, 34, 102, 105, 110, 97, 110, 99, 105, 97, 108, 115, 34, 58, 34, 50, 48, 50, 52, 45, 48, 49, 45, 48, 50, 84, 48, 48, 58, 48, 48, 58, 48, 48, 43, 48, 48, 58, 48, 48, 34, 44, 34, 109, 97] ++ ([114, 107, 101, 116, 95, 100, 97, 116, 97, 34, 58, 34, 50, 48, 50, 52, 45, 48, 49, 45, 48, 50, 84, 48, 48, 58, 48, 48, 58, 48, 48, 43, 48, 48, 58, 48, 48, 34, 125, 44, 34, 102, 105, 110, 97, 110, 99, 105, 97, 108, 115, 34, 58, 91, 93, 44, 34, 105, 100, 101, 110, 116, 105, 116, 121, 34, 58, 123, 34, 99, 111, 109, 112, 97, 110, 121, 95, 110, 97, 109, 101, 34, 58, 34, 84, 101, 115, 116, 32, 67, 111, 34, 44, 34, 109, 97, 114, 107, 101, 116] ++ ([34, 58, 34, 85, 83, 34, 44, 34, 109, 97, 116, 99, 104, 101, 100, 95, 111, 110, 34, 58, 34, 116, 105, 99, 107, 101, 114, 34, 44, 34, 113, 117, 101, 114, 121, 34, 58, 34, 116, 101, 115, 116, 34, 44, 34, 115, 121, 109, 98, 111, 108, 34, 58, 34, 84, 69, 83, 84, 34, 125, 44, 34, 109, 97, 114, 107, 101, 116, 34, 58, 34, 85, 83, 34, 44, 34, 109, 97, 114, 107, 101, 116, 95, 100, 97, 116, 97, 34, 58, 123, 34, 98, 97, 114, 115, 34, 58, 91, 93, 44] ++ ([34, 100, 97, 116, 97, 95, 116, 105, 109, 101, 115, 116, 97, 109, 112, 34, 58, 34, 50, 48, 50, 52, 45, 48, 49, 45, 48, 50, 84, 48, 48, 58, 48, 48, 58, 48, 48, 43, 48, 48, 58, 48, 48, 34, 44, 34, 115, 111, 117, 114, 99, 101, 34, 58, 34, 115, 116, 111, 111, 113, 34, 44, 34, 115, 121, 109, 98, 111, 108, 34, 58, 34, 84, 69, 83, 84, 34, 125, 44, 34, 114, 105, 115, 107, 34, 58, 123, 34, 97, 108, 103, 111, 95, 118, 101, 114, 115, 105, 111, 110] ++ ([34, 58, 34, 114, 105, 115, 107, 95, 118, 49, 46, 48, 46, 48, 34, 44, 34, 97, 115, 95, 111, 102, 34, 58, 34, 50, 48, 50, 52, 45, 48, 49, 45, 48, 50, 34, 44, 34, 115, 104, 97, 114, 112, 101, 95, 50, 48, 34, 58, 110, 117, 108, 108, 44, 34, 118, 97, 114, 95, 57, 53, 95, 50, 48, 34, 58, 110, 117, 108, 108, 125, 44, 34, 114, 117, 108, 101, 115, 34, 58, 123, 34, 102, 108, 97, 103, 115, 34, 58, 91, 93, 44, 34, 114, 117, 108, 101, 95, 118, 101] ++ ([114, 115, 105, 111, 110, 34, 58, 34, 114, 105, 115, 107, 95, 114, 117, 108, 101, 115, 95, 118, 49, 34, 125, 44, 34, 115, 121, 109, 98, 111, 108, 34, 58, 34, 84, 69, 83, 84, 34, 44, 34, 116, 101, 99, 104, 110, 105, 99, 97, 108, 115, 34, 58, 123, 34, 97, 108, 103, 111, 95, 118, 101, 114, 115, 105, 111, 110, 34, 58, 34, 109, 101, 116, 114, 105, 99, 115, 95, 118, 49, 46, 48, 46, 48, 34, 44, 34, 97, 115, 95, 111, 102, 34, 58, 34, 50, 48, 50, 52, 45] ++ ([48, 49, 45, 48, 50, 34, 44, 34, 109, 97, 95, 50, 48, 34, 58, 110, 117, 108, 108, 44, 34, 109, 97, 95, 53, 48, 34, 58, 110, 117, 108, 108, 44, 34, 109, 97, 120, 95, 100, 114, 97, 119, 100, 111, 119, 110, 34, 58, 45, 48, 46, 50, 44, 34, 118, 111, 108, 97, 116, 105, 108, 105, 116, 121, 95, 50, 48, 34, 58, 110, 117, 108, 108, 125, 125]))))))))
    = "9565eaba7bdff45ad7d81f0d518ed6fad598e9784a29296ce9d9662e4f9e7b3c" := rfl

set_option maxRecDepth 100000 in
set_option maxHeartbeats 4000000 in
/-- The analysis id of snapA, computed stepwise: the canonical dump of its
seed equals a concatenation of literal chunks, utf8 encoding distributes
over the chunks, and SHA-256 of the resulting bytes gives the digest. -/
theorem snapA_id : snapA.analysis_id
    = "e8a4664dae87dca2e8d2b7d7b9124c60984b695226f7bdcb86d839809a740b64" := by
  show _hash_seed (buildSeed identT ⟨2024, 1, 2⟩ mdT [] techDD10 riskT rulesT)
    = "e8a4664dae87dca2e8d2b7d7b9124c60984b695226f7bdcb86d839809a740b64"
  unfold _hash_seed
  rw [show canonical_dumps (buildSeed identT ⟨2024, 1, 2⟩ mdT []
      techDD10 riskT rulesT)
    = "\x7b\"algo_versions\":\x7b\"metrics\":\"metrics_v1.0.0\",\"risk\":\"risk_v1.0.0\",\"rules\":\"risk_rules_v1\"\x7d,\"as_of\":\"" ++ ("2024-01-02\",\"company_name\":\"Test Co\",\"data_timestamps\":\x7b\"financials\":\"2024-01-02T00:00:00+00:00\",\"ma" ++ ("rket_data\":\"2024-01-02T00:00:00+00:00\"\x7d,\"financials\":[],\"identity\":\x7b\"company_name\":\"Test Co\",\"market" ++ ("\":\"US\",\"matched_on\":\"ticker\",\"query\":\"test\",\"symbol\":\"TEST\"\x7d,\"market\":\"US\",\"market_data\":\x7b\"bars\":[]," ++ ("\"data_timestamp\":\"2024-01-02T00:00:00+00:00\",\"source\":\"stooq\",\"symbol\":\"TEST\"\x7d,\"risk\":\x7b\"algo_version" ++ ("\":\"risk_v1.0.0\",\"as_of\":\"2024-01-02\",\"sharpe_20\":null,\"var_95_20\":null\x7d,\"rules\":\x7b\"flags\":[],\"rule_ve" ++ ("rsion\":\"risk_rules_v1\"\x7d,\"symbol\":\"TEST\",\"technicals\":\x7b\"algo_version\":\"metrics_v1.0.0\",\"as_of\":\"2024-" ++ ("01-02\",\"ma_20\":null,\"ma_50\":null,\"max_drawdown\":-0.1,\"volatility_20\":null\x7d\x7d"))))))) from rfl]
  simp only [utf8Bytes_append]
  rw [utf8chunk_1, utf8chunk_2, utf8chunk_3, utf8chunk_4, utf8chunk_5, utf8chunk_6, utf8chunk_7, utf8chunkA_8]
  exact sha_seedA

set_option maxRecDepth 100000 in
set_option maxHeartbeats 4000000 in
/-- The analysis id of snapB, computed stepwise. -/
theorem snapB_id : snapB.analysis_id
    = "9565eaba7bdff45ad7d81f0d518ed6fad598e9784a29296ce9d9662e4f9e7b3c" := by
  show _hash_seed (buildSeed identT ⟨2024, 1, 2⟩ mdT [] techDD20 riskT rulesT)
    = "9565eaba7bdff45ad7d81f0d518ed6fad598e9784a29296ce9d9662e4f9e7b3c"
  unfold _hash_seed
  rw [show canonical_dumps (buildSeed identT ⟨2024, 1, 2⟩ mdT []
      techDD20 riskT rulesT)
    = "\x7b\"algo_versions\":\x7b\"metrics\":\"metrics_v1.0.0\",\"risk\":\"risk_v1.0.0\",\"rules\":\"risk_rules_v1\"\x7d,\"as_of\":\"" ++ ("2024-01-02\",\"company_name\":\"Test Co\",\"data_timestamps\":\x7b\"financials\":\"2024-01-02T00:00:00+00:00\",\"ma" ++ ("rket_data\":\"2024-01-02T00:00:00+00:00\"\x7d,\"financials\":[],\"identity\":\x7b\"company_name\":\"Test Co\",\"market" ++ ("\":\"US\",\"matched_on\":\"ticker\",\"query\":\"test\",\"symbol\":\"TEST\"\x7d,\"market\":\"US\",\"market_data\":\x7b\"bars\":[]," ++ ("\"data_timestamp\":\"2024-01-02T00:00:00+00:00\",\"source\":\"stooq\",\"symbol\":\"TEST\"\x7d,\"risk\":\x7b\"algo_version" ++ ("\":\"risk_v1.0.0\",\"as_of\":\"2024-01-02\",\"sharpe_20\":null,\"var_95_20\":null\x7d,\"rules\":\x7b\"flags\":[],\"rule_ve" ++ ("rsion\":\"risk_rules_v1\"\x7d,\"symbol\":\"TEST\",\"technicals\":\x7b\"algo_version\":\"metrics_v1.0.0\",\"as_of\":\"2024-" ++ ("01-02\",\"ma_20\":null,\"ma_50\":null,\"max_drawdown\":-0.2,\"volatility_20\":null\x7d\x7d"))))))) from rfl]
  simp only [utf8Bytes_append]
  rw [utf8chunk_1, utf8chunk_2, utf8chunk_3, utf8chunk_4, utf8chunk_5, utf8chunk_6, utf8chunk_7, utf8chunkB_8]
  exact sha_seedB

/-- C3 — snapshot determinism (state.py build_snapshot / _hash_seed,
utils/jsonutil.py canonical_dumps): the analysis id is invariant under the
construction order of the hashed seed mapping — any permutation of a
seed's entries (keys are unique in a dict) canonicalizes to the same
key-sorted serialization and hence the same SHA-256 analysis_id, so two
processes building the snapshot from field-identical inputs agree — while
changing an included field that survives canonicalization, here
max_drawdown -0.1 versus -0.2 in otherwise identical inputs, produces a
different analysis_id. -/
theorem C3_snapshot_determinism (l1 l2 : List (String × JVal))
    (hperm : l1.Perm l2) (hnd : (l1.map Prod.fst).Nodup) :
    _hash_seed (JVal.jobj l1) = _hash_seed (JVal.jobj l2) ∧
    snapA.analysis_id ≠ snapB.analysis_id := by
  constructor
  · unfold _hash_seed
    rw [canonical_dumps_perm l1 l2 hperm hnd]
  · rw [snapA_id, snapB_id]
    decide

/-- C3 witness: a two-entry seed given in both orders hashes identically. -/
theorem C3_snapshot_determinism_witness :
    _hash_seed (JVal.jobj [("b", JVal.jbool true), ("a", JVal.jnull)])
      = _hash_seed (JVal.jobj [("a", JVal.jnull), ("b", JVal.jbool true)]) :=
  (C3_snapshot_determinism
    [("b", JVal.jbool true), ("a", JVal.jnull)]
    [("a", JVal.jnull), ("b", JVal.jbool true)]
    (List.Perm.swap ("a", JVal.jnull) ("b", JVal.jbool true) [])
    (by decide)).1

/-! C5 support: calendar enumeration is duplicate-free, string max is a
least upper bound of the fold, and write-back lands every bar under its
key. -/

theorem charLe_refl : ∀ (as : List Char), charListLe as as = true := by
  intro as
  induction as with
  | nil => rfl
  | cons a as ih =>
    simp only [charListLe]
    rw [if_neg (by omega), if_neg (by omega)]
    exact ih

theorem strLeB_refl (a : String) : strLeB a a = true := charLe_refl a.data

theorem strMax_le_left (t x : String) : strLeB t (strMax t x) = true := by
  unfold strMax
  by_cases h : strLeB t x = true
  · rw [if_pos h]; exact h
  · rw [if_neg h]; exact strLeB_refl t

theorem strMax_le_right (t x : String) : strLeB x (strMax t x) = true := by
  unfold strMax
  by_cases h : strLeB t x = true
  · rw [if_pos h]; exact strLeB_refl x
  · rw [if_neg h]
    rcases strLeB_total t x with h1 | h1
    · exact absurd h1 h
    · exact h1

theorem foldl_strMax_bounds : ∀ (ts : List String) (t : String),
    strLeB t (ts.foldl strMax t) = true ∧
    ∀ x ∈ ts, strLeB x (ts.foldl strMax t) = true := by
  intro ts
  induction ts with
  | nil => intro t; exact ⟨strLeB_refl t, by simp⟩
  | cons x xs ih =>
    intro t
    simp only [List.foldl_cons]
    obtain ⟨h1, h2⟩ := ih (strMax t x)
    refine ⟨strLeB_trans _ _ _ (strMax_le_left t x) h1, ?_⟩
    intro y hy
    rcases List.mem_cons.mp hy with rfl | hmem
    · exact strLeB_trans _ _ _ (strMax_le_right t y) h1
    · exact h2 y hmem

theorem foldl_strMax_mem : ∀ (ts : List String) (t : String),
    ts.foldl strMax t ∈ t :: ts := by
  intro ts
  induction ts with
  | nil => intro t; simp
  | cons x xs ih =>
    intro t
    simp only [List.foldl_cons]
    have hmem := ih (strMax t x)
    have hcases : strMax t x = t ∨ strMax t x = x := by
      unfold strMax
      by_cases h : strLeB t x = true
      · right; rw [if_pos h]
      · left; rw [if_neg h]
    rcases List.mem_cons.mp hmem with heq | hmem2
    · rcases hcases with hc | hc
      · rw [heq, hc]; simp
      · rw [heq, hc]; simp
    · simp [List.mem_cons]
      right; right
      exact hmem2

theorem dateLe_trans (a b c : DateT) (h1 : DateT.le a b = true)
    (h2 : DateT.le b c = true) : DateT.le a c = true := by
  simp only [DateT.le, Bool.or_eq_true, Bool.and_eq_true, decide_eq_true_eq,
    beq_iff_eq] at h1 h2 ⊢
  omega

theorem dateLe_total (a b : DateT) :
    DateT.le a b = true ∨ DateT.le b a = true := by
  simp only [DateT.le, Bool.or_eq_true, Bool.and_eq_true, decide_eq_true_eq,
    beq_iff_eq]
  omega

theorem daysInMonth_bounds (y m : Nat) :
    1 ≤ daysInMonth y m ∧ daysInMonth y m ≤ 31 := by
  unfold daysInMonth
  split_ifs <;> omega

theorem nextDay_valid (d : DateT) (h : validDate d = true) :
    validDate (DateT.nextDay d) = true := by
  have hb1 := daysInMonth_bounds d.year (d.month + 1)
  have hb2 := daysInMonth_bounds (d.year + 1) 1
  simp only [validDate, Bool.and_eq_true, decide_eq_true_eq] at h ⊢
  unfold DateT.nextDay
  split_ifs with h1 h2 <;> simp only [] <;> omega

theorem dateRank_lt_nextDay (d : DateT) (h : validDate d = true) :
    dateRank d < dateRank (DateT.nextDay d) := by
  have hb := daysInMonth_bounds d.year d.month
  simp only [validDate, Bool.and_eq_true, decide_eq_true_eq] at h
  unfold DateT.nextDay dateRank
  split_ifs with h1 h2 <;> simp only [] <;> omega

theorem daysRangeAux_props : ∀ (fuel : Nat) (cur last : DateT),
    validDate cur = true →
    (daysRangeAux fuel cur last).Pairwise
      (fun a b => dateRank a < dateRank b)
    ∧ (∀ x ∈ daysRangeAux fuel cur last,
        dateRank cur ≤ dateRank x ∧ validDate x = true) := by
  intro fuel
  induction fuel with
  | zero => intro cur last _; exact ⟨List.Pairwise.nil, by simp [daysRangeAux]⟩
  | succ n ih =>
    intro cur last h
    simp only [daysRangeAux]
    by_cases hle : DateT.le cur last = true
    · rw [if_pos hle]
      obtain ⟨hpw, hmem⟩ := ih (DateT.nextDay cur) last (nextDay_valid cur h)
      have hlt := dateRank_lt_nextDay cur h
      constructor
      · exact List.Pairwise.cons
          (fun x hx => lt_of_lt_of_le hlt (hmem x hx).1) hpw
      · intro x hx
        rcases List.mem_cons.mp hx with rfl | hx2
        · exact ⟨le_refl _, h⟩
        · exact ⟨le_trans (le_of_lt hlt) (hmem x hx2).1, (hmem x hx2).2⟩
    · rw [if_neg hle]
      exact ⟨List.Pairwise.nil, by simp⟩

theorem daysRange_nodup (start last : DateT) (h : validDate start = true) :
    (daysRange start last).Nodup := by
  have hpw := (daysRangeAux_props ((last.year + 2 - start.year) * 366)
    start last h).1
  exact hpw.imp (fun hlt heq => by subst heq; exact absurd hlt (lt_irrefl _))

theorem hitVals_dates (cache : List (String × BarVal)) (symbol : String) :
    ∀ (days : List DateT),
    days.all (fun d =>
      match dGet cache (mkey symbol d) with
      | some hit => hit.date == d
      | none => true) = true →
    (days.filterMap (fun d => dGet cache (mkey symbol d))).map BarVal.date
      = days.filter (fun d => (dGet cache (mkey symbol d)).isSome) := by
  intro days
  induction days with
  | nil => intro _; rfl
  | cons d rest ih =>
    intro hwf
    simp only [List.all_cons, Bool.and_eq_true] at hwf
    obtain ⟨hd, hrest⟩ := hwf
    simp only [List.filterMap_cons, List.filter_cons]
    cases hget : dGet cache (mkey symbol d) with
    | none => simp [hget, ih hrest]
    | some hit =>
      simp only [hget] at hd
      have hdate : hit.date = d := by simpa using hd
      simp [hget, hdate, ih hrest]

theorem dGet_foldl_dSet_notin {β : Type} (k : String) :
    ∀ (ws : List (String × β)) (c : List (String × β)),
    (∀ w ∈ ws, (k == w.1) = false) →
    dGet (ws.foldl (fun acc w => dSet acc w.1 w.2) c) k = dGet c k := by
  intro ws
  induction ws with
  | nil => intro c _; rfl
  | cons w rest ih =>
    intro c hnot
    simp only [List.foldl_cons]
    rw [ih (dSet c w.1 w.2) (fun x hx => hnot x (List.mem_cons_of_mem w hx))]
    exact dGet_dSet_ne c w.1 k w.2 (hnot w (List.mem_cons_self w rest))

theorem dGet_foldl_dSet_self {β : Type} :
    ∀ (ws : List (String × β)) (c : List (String × β)) (k : String) (v : β),
    (k, v) ∈ ws → (ws.map Prod.fst).Nodup →
    dGet (ws.foldl (fun acc w => dSet acc w.1 w.2) c) k = some v := by
  intro ws
  induction ws with
  | nil => intro c k v hmem _; simp at hmem
  | cons w rest ih =>
    obtain ⟨w1, w2⟩ := w
    intro c k v hmem hnd
    simp only [List.map_cons, List.nodup_cons] at hnd
    obtain ⟨hw, hndrest⟩ := hnd
    simp only [List.foldl_cons]
    rcases List.mem_cons.mp hmem with heq | hmem2
    · cases heq
      have h1 : ∀ x ∈ rest, (w1 == x.1) = false := by
        intro x hx
        rw [beq_eq_false_iff_ne]
        intro hkx
        apply hw
        rw [hkx]
        exact List.mem_map_of_mem Prod.fst hx
      have h2 := dGet_foldl_dSet_notin w1 rest (dSet c w1 w2) h1
      simpa [dGet_dSet_self] using h2
    · exact ih (dSet c w1 w2) k v hmem2 hndrest

/-- C5 — range cache policy (datasources/market.py get_daily_range and
_cache_bars): probing one cache entry per calendar day of [start, last],
when the count of distinct hit dates reaches max(min_bars, 1) the call
returns exactly the cached bars sorted by date ascending, stamped with
the maximum data timestamp observed among the hits, without calling the
provider or touching the cache; otherwise it calls the provider once for
the whole range, returns the freshly fetched series, and writes every
fetched bar back into the cache under its own (symbol, date) key.
Hypotheses: the start date is calendar-valid (so the enumerated days are
distinct) and cached entries carry the date they are keyed under. -/
theorem C5_range_cache_policy (cache : List (String × BarVal))
    (provider : ProviderOracle) (ttl : Int) (now symbol : String)
    (start last : DateT) (min_bars : Int)
    (hvalid : validDate start = true)
    (hwf : cacheDatesOk cache symbol (daysRange start last) = true) :
    (((hitDays cache symbol start last).length : Int) ≥ max min_bars 1 →
      (get_daily_range cache provider ttl now symbol start last
          min_bars).provider_called = false ∧
      (get_daily_range cache provider ttl now symbol start last
          min_bars).cache = cache ∧
      (get_daily_range cache provider ttl now symbol start last
          min_bars).result.symbol = symbol ∧
      (get_daily_range cache provider ttl now symbol start last
          min_bars).result.source = provider.name ∧
      (get_daily_range cache provider ttl now symbol start last
          min_bars).result.bars.Perm
        ((hitVals cache symbol start last).map barOfHit) ∧
      (get_daily_range cache provider ttl now symbol start last
          min_bars).result.bars.Pairwise
        (fun a b => DateT.le a.date b.date = true) ∧
      (get_daily_range cache provider ttl now symbol start last
          min_bars).result.data_timestamp
        ∈ (hitVals cache symbol start last).map BarVal.data_timestamp ∧
      (∀ t ∈ (hitVals cache symbol start last).map BarVal.data_timestamp,
        strLeB t (get_daily_range cache provider ttl now symbol start last
          min_bars).result.data_timestamp = true)) ∧
    (((hitDays cache symbol start last).length : Int) < max min_bars 1 →
      (get_daily_range cache provider ttl now symbol start last
          min_bars).provider_called = true ∧
      (get_daily_range cache provider ttl now symbol start last
          min_bars).result = provider.fetch_daily start last ∧
      (((provider.fetch_daily start last).bars.map
          (fun b => mkey symbol b.date)).Nodup →
        ∀ bar ∈ (provider.fetch_daily start last).bars,
          dGet (get_daily_range cache provider ttl now symbol start last
              min_bars).cache (mkey symbol bar.date)
            = some (barRecord symbol (provider.fetch_daily start last) bar))) := by
  have hdates : ((daysRange start last).filterMap
        (fun d => dGet cache (mkey symbol d))).map BarVal.date
      = (daysRange start last).filter
        (fun d => (dGet cache (mkey symbol d)).isSome) :=
    hitVals_dates cache symbol (daysRange start last) hwf
  have hnodupHit : ((daysRange start last).filter
      (fun d => (dGet cache (mkey symbol d)).isSome)).Nodup :=
    (daysRange_nodup start last hvalid).filter _
  have hcached : ((((daysRange start last).filterMap
        (fun d => dGet cache (mkey symbol d))).map barOfHit).map
        MarketBar.date)
      = (daysRange start last).filter
        (fun d => (dGet cache (mkey symbol d)).isSome) := by
    rw [List.map_map]
    exact hdates
  have hdedup : (((((daysRange start last).filterMap
        (fun d => dGet cache (mkey symbol d))).map barOfHit).map
        MarketBar.date).dedup)
      = (daysRange start last).filter
        (fun d => (dGet cache (mkey symbol d)).isSome) := by
    rw [hcached]
    exact List.dedup_eq_self.mpr hnodupHit
  constructor
  · intro hge
    simp only [hitDays] at hge
    simp only [hitVals]
    have hge' : ((((((daysRange start last).filterMap
          (fun d => dGet cache (mkey symbol d))).map barOfHit).map
          MarketBar.date).dedup).length : Int) ≥ max min_bars 1 := by
      rw [hdedup]
      exact hge
    have hres : get_daily_range cache provider ttl now symbol start last
        min_bars
        = ⟨⟨symbol, provider.name,
            (match ((daysRange start last).filterMap
                (fun d => dGet cache (mkey symbol d))).map
                BarVal.data_timestamp with
              | [] => now
              | t :: rest => rest.foldl strMax t),
            List.insertionSort (fun a b => DateT.le a.date b.date)
              (((daysRange start last).filterMap
                (fun d => dGet cache (mkey symbol d))).map barOfHit)⟩,
          cache, false⟩ := by
      unfold get_daily_range
      rw [if_pos hge']
    rw [hres]
    have hne : ((daysRange start last).filterMap
        (fun d => dGet cache (mkey symbol d))).map BarVal.data_timestamp
        ≠ [] := by
      intro hnil
      have hbase : (daysRange start last).filterMap
          (fun d => dGet cache (mkey symbol d)) = [] := by
        cases hb : (daysRange start last).filterMap
            (fun d => dGet cache (mkey symbol d)) with
        | nil => rfl
        | cons x xs => rw [hb] at hnil; simp at hnil
      have hlen0 : ((daysRange start last).filter
          (fun d => (dGet cache (mkey symbol d)).isSome)).length = 0 := by
        rw [← hdates, hbase]
        rfl
      have h1 : (1 : Int) ≤ (((daysRange start last).filter
          (fun d => (dGet cache (mkey symbol d)).isSome)).length : Int) :=
        le_trans (le_max_right min_bars 1) hge
      omega
    haveI : IsTotal MarketBar (fun a b => DateT.le a.date b.date = true) :=
      ⟨fun a b => dateLe_total a.date b.date⟩
    haveI : IsTrans MarketBar (fun a b => DateT.le a.date b.date = true) :=
      ⟨fun a b c => dateLe_trans a.date b.date c.date⟩
    refine ⟨rfl, rfl, rfl, rfl, List.perm_insertionSort _ _, ?_, ?_, ?_⟩
    · exact List.sorted_insertionSort _ _
    · cases hts : ((daysRange start last).filterMap
          (fun d => dGet cache (mkey symbol d))).map BarVal.data_timestamp with
      | nil => exact absurd hts hne
      | cons t rest => exact foldl_strMax_mem rest t
    · cases hts : ((daysRange start last).filterMap
          (fun d => dGet cache (mkey symbol d))).map BarVal.data_timestamp with
      | nil => exact absurd hts hne
      | cons t rest =>
        intro x hx
        obtain ⟨h1, h2⟩ := foldl_strMax_bounds rest t
        rcases List.mem_cons.mp hx with rfl | hmem
        · exact h1
        · exact h2 x hmem
  · intro hlt
    simp only [hitDays] at hlt
    have hlt' : ¬ (((((((daysRange start last).filterMap
          (fun d => dGet cache (mkey symbol d))).map barOfHit).map
          MarketBar.date).dedup).length : Int) ≥ max min_bars 1) := by
      rw [hdedup]
      omega
    have hres : get_daily_range cache provider ttl now symbol start last
        min_bars
        = { result := provider.fetch_daily start last,
            cache := cacheBars cache symbol (provider.fetch_daily start last)
              ttl,
            provider_called := true } := by
      unfold get_daily_range
      rw [if_neg hlt']
      by_cases hzero : (((((daysRange start last).filterMap
          (fun d => dGet cache (mkey symbol d))).map barOfHit).map
          MarketBar.date).dedup).length = 0
      · rw [if_pos hzero]
      · rw [if_neg hzero]
    rw [hres]
    refine ⟨rfl, rfl, ?_⟩
    intro hnd bar hbar
    have hfold : cacheBars cache symbol (provider.fetch_daily start last) ttl
        = (((provider.fetch_daily start last).bars.map
            (fun b => (mkey symbol b.date,
              barRecord symbol (provider.fetch_daily start last) b))).foldl
          (fun acc w => dSet acc w.1 w.2) cache) := by
      rw [List.foldl_map]
      rfl
    rw [hfold]
    apply dGet_foldl_dSet_self
    · exact List.mem_map_of_mem _ hbar
    · rw [List.map_map]
      exact hnd

/-- C5 witness: with two of four days cached (valid dates, well-keyed
records), min_bars 2 is served from the cache without a provider call
while min_bars 3 triggers the upstream fetch. -/
theorem C5_range_cache_policy_witness :
    ((get_daily_range cacheW provW 86400 "NOW" "TEST" ⟨2024, 1, 1⟩
        ⟨2024, 1, 4⟩ 2).provider_called = false) ∧
    ((get_daily_range cacheW provW 86400 "NOW" "TEST" ⟨2024, 1, 1⟩
        ⟨2024, 1, 4⟩ 3).provider_called = true) := by
  have h2 := C5_range_cache_policy cacheW provW 86400 "NOW" "TEST"
    ⟨2024, 1, 1⟩ ⟨2024, 1, 4⟩ 2 (by decide) (by decide)
  have h3 := C5_range_cache_policy cacheW provW 86400 "NOW" "TEST"
    ⟨2024, 1, 1⟩ ⟨2024, 1, 4⟩ 3 (by decide) (by decide)
  exact ⟨(h2.1 (by decide)).1, (h3.2 (by decide)).1⟩

/-! C4 support: allocation, preservation and freshness lemmas for the
heap model. -/

theorem heapDomLt_mem (h : Heap) (hdom : heapDomLt h = true)
    (e : Addr × HObj) (hmem : e ∈ h.objs) : e.1 < h.next := by
  simp only [heapDomLt, List.all_eq_true] at hdom
  simpa using hdom e hmem

theorem heapGet_lt_next (h : Heap) (hdom : heapDomLt h = true) (a : Addr)
    (o : HObj) (hget : heapGet h a = some o) : a < h.next := by
  simp only [heapGet] at hget
  cases hf : h.objs.find? (fun e => e.1 == a) with
  | none => rw [hf] at hget; simp at hget
  | some e =>
    have hkey := List.find?_some hf
    have hmem := List.mem_of_find?_eq_some hf
    have hlt := heapDomLt_mem h hdom e hmem
    have heq : e.1 = a := by simpa using hkey
    exact heq ▸ hlt

theorem heapGet_alloc_self (h : Heap) (o : HObj) (hdom : heapDomLt h = true) :
    heapGet (heapAlloc h o).1 (heapAlloc h o).2 = some o := by
  simp only [heapAlloc, heapGet, List.find?_append]
  have h1 : h.objs.find? (fun e => e.1 == h.next) = none := by
    rw [List.find?_eq_none]
    intro e hmem
    have := heapDomLt_mem h hdom e hmem
    simp only [beq_iff_eq]
    exact Nat.ne_of_lt this
  rw [h1]
  simp

theorem heapGet_alloc_ne (h : Heap) (o : HObj) (a : Addr)
    (ha : a ≠ h.next) : heapGet (heapAlloc h o).1 a = heapGet h a := by
  simp only [heapAlloc, heapGet, List.find?_append]
  have h2 : [(h.next, o)].find? (fun e => e.1 == a) = none := by
    rw [List.find?_eq_none]
    intro e hmem
    simp only [List.mem_singleton] at hmem
    subst hmem
    simp only [beq_iff_eq]
    exact fun hh => ha hh.symm
  rw [h2]
  cases hf : h.objs.find? (fun e => e.1 == a) <;> rfl

theorem heapGet_alloc_lt (h : Heap) (o : HObj) (a : Addr)
    (ha : a < h.next) : heapGet (heapAlloc h o).1 a = heapGet h a :=
  heapGet_alloc_ne h o a (Nat.ne_of_lt ha)

theorem heapDomLt_alloc (h : Heap) (o : HObj) (hdom : heapDomLt h = true) :
    heapDomLt (heapAlloc h o).1 = true := by
  simp only [heapDomLt, List.all_eq_true] at hdom
  simp only [heapDomLt, heapAlloc, List.all_eq_true]
  intro e hmem
  rcases List.mem_append.1 hmem with hmem | hmem
  · have := hdom e hmem
    simp only [decide_eq_true_eq] at this ⊢
    exact Nat.lt_succ_of_lt this
  · simp only [List.mem_singleton] at hmem
    subst hmem
    simp

theorem valGe_mono (m n : Nat) (v : HVal) (hmn : n ≤ m)
    (hv : valGe m v = true) : valGe n v = true := by
  cases v with
  | href a =>
    simp only [valGe, decide_eq_true_eq] at hv ⊢
    exact Nat.le_trans hmn hv
  | hnone => rfl
  | hbool b => rfl
  | hint i => rfl
  | hnum q => rfl
  | hstr s2 => rfl

theorem objGe_mono (m n : Nat) (o : HObj) (hmn : n ≤ m)
    (ho : objGe m o = true) : objGe n o = true := by
  cases o with
  | hlist l =>
    simp only [objGe, List.all_eq_true] at ho ⊢
    exact fun v hv => valGe_mono m n v hmn (ho v hv)
  | hdict l =>
    simp only [objGe, List.all_eq_true] at ho ⊢
    exact fun e he => valGe_mono m n e.2 hmn (ho e he)

theorem valsGe_mono (m n : Nat) (l : List HVal) (hmn : n ≤ m)
    (hl : l.all (valGe m) = true) : l.all (valGe n) = true := by
  simp only [List.all_eq_true] at hl ⊢
  exact fun v hv => valGe_mono m n v hmn (hl v hv)

theorem dvalsGe_mono (m n : Nat) (l : List (String × HVal)) (hmn : n ≤ m)
    (hl : l.all (fun e => valGe m e.2) = true) :
    l.all (fun e => valGe n e.2) = true := by
  simp only [List.all_eq_true] at hl ⊢
  exact fun e he => valGe_mono m n e.2 hmn (hl e he)

mutual
theorem writeTree_next_mono : ∀ (t : HTree) (h : Heap),
    h.next ≤ (writeTree h t).1.next
  | HTree.leaf _, _ => le_refl _
  | HTree.tlist ts, h => by
    have h1 := writeTreeList_next_mono ts h
    show h.next ≤ (writeTreeList h ts).1.next + 1
    exact Nat.le_succ_of_le h1
  | HTree.tdict ts, h => by
    have h1 := writeTreeDict_next_mono ts h
    show h.next ≤ (writeTreeDict h ts).1.next + 1
    exact Nat.le_succ_of_le h1

theorem writeTreeList_next_mono : ∀ (ts : HTreeList) (h : Heap),
    h.next ≤ (writeTreeList h ts).1.next
  | HTreeList.lnil, _ => le_refl _
  | HTreeList.lcons t ts, h => by
    have h1 := writeTree_next_mono t h
    have h2 := writeTreeList_next_mono ts (writeTree h t).1
    show h.next ≤ (writeTreeList (writeTree h t).1 ts).1.next
    exact Nat.le_trans h1 h2

theorem writeTreeDict_next_mono : ∀ (ts : HTreeDict) (h : Heap),
    h.next ≤ (writeTreeDict h ts).1.next
  | HTreeDict.dnil, _ => le_refl _
  | HTreeDict.dcons _ t ts, h => by
    have h1 := writeTree_next_mono t h
    have h2 := writeTreeDict_next_mono ts (writeTree h t).1
    show h.next ≤ (writeTreeDict (writeTree h t).1 ts).1.next
    exact Nat.le_trans h1 h2
end

mutual
theorem writeTree_pres : ∀ (t : HTree) (h : Heap) (a : Addr), a < h.next →
    heapGet (writeTree h t).1 a = heapGet h a
  | HTree.leaf _, _, _, _ => rfl
  | HTree.tlist ts, h, a, ha => by
    show heapGet (heapAlloc (writeTreeList h ts).1
      (HObj.hlist (writeTreeList h ts).2)).1 a = heapGet h a
    rw [heapGet_alloc_lt _ _ a
      (Nat.lt_of_lt_of_le ha (writeTreeList_next_mono ts h))]
    exact writeTreeList_pres ts h a ha
  | HTree.tdict ts, h, a, ha => by
    show heapGet (heapAlloc (writeTreeDict h ts).1
      (HObj.hdict (writeTreeDict h ts).2)).1 a = heapGet h a
    rw [heapGet_alloc_lt _ _ a
      (Nat.lt_of_lt_of_le ha (writeTreeDict_next_mono ts h))]
    exact writeTreeDict_pres ts h a ha

theorem writeTreeList_pres : ∀ (ts : HTreeList) (h : Heap) (a : Addr),
    a < h.next → heapGet (writeTreeList h ts).1 a = heapGet h a
  | HTreeList.lnil, _, _, _ => rfl
  | HTreeList.lcons t ts, h, a, ha => by
    show heapGet (writeTreeList (writeTree h t).1 ts).1 a = heapGet h a
    rw [writeTreeList_pres ts (writeTree h t).1 a
      (Nat.lt_of_lt_of_le ha (writeTree_next_mono t h))]
    exact writeTree_pres t h a ha

theorem writeTreeDict_pres : ∀ (ts : HTreeDict) (h : Heap) (a : Addr),
    a < h.next → heapGet (writeTreeDict h ts).1 a = heapGet h a
  | HTreeDict.dnil, _, _, _ => rfl
  | HTreeDict.dcons _ t ts, h, a, ha => by
    show heapGet (writeTreeDict (writeTree h t).1 ts).1 a = heapGet h a
    rw [writeTreeDict_pres ts (writeTree h t).1 a
      (Nat.lt_of_lt_of_le ha (writeTree_next_mono t h))]
    exact writeTree_pres t h a ha
end

mutual
theorem writeTree_fresh : ∀ (t : HTree) (h : Heap),
    treeLeafOK t = true → heapDomLt h = true →
    heapDomLt (writeTree h t).1 = true ∧
    valGe h.next (writeTree h t).2 = true ∧
    (∀ a o, h.next ≤ a → heapGet (writeTree h t).1 a = some o →
      objGe h.next o = true)
  | HTree.leaf v, h, hok, hdom => by
    refine ⟨hdom, ?_, ?_⟩
    · cases v with
      | href a => exact absurd hok (by simp [treeLeafOK])
      | hnone => rfl
      | hbool b => rfl
      | hint i => rfl
      | hnum q => rfl
      | hstr s => rfl
    · intro a o ha hget
      exact absurd (heapGet_lt_next h hdom a o hget) (Nat.not_lt.mpr ha)
  | HTree.tlist ts, h, hok, hdom => by
    obtain ⟨hd, hv, hc⟩ := writeTreeList_fresh ts h hok hdom
    refine ⟨?_, ?_, ?_⟩
    · show heapDomLt (heapAlloc (writeTreeList h ts).1
        (HObj.hlist (writeTreeList h ts).2)).1 = true
      exact heapDomLt_alloc _ _ hd
    · show decide (h.next ≤ (writeTreeList h ts).1.next) = true
      exact decide_eq_true (writeTreeList_next_mono ts h)
    · intro a o ha hget
      have hget2 : heapGet (heapAlloc (writeTreeList h ts).1
          (HObj.hlist (writeTreeList h ts).2)).1 a = some o := hget
      by_cases hcase : a = (writeTreeList h ts).1.next
      · subst hcase
        have hself : heapGet (heapAlloc (writeTreeList h ts).1
            (HObj.hlist (writeTreeList h ts).2)).1 (writeTreeList h ts).1.next
            = some (HObj.hlist (writeTreeList h ts).2) :=
          heapGet_alloc_self _ _ hd
        have hoo := Option.some.inj (hself.symm.trans hget2)
        rw [← hoo]
        exact hv
      · have hne := heapGet_alloc_ne (writeTreeList h ts).1
          (HObj.hlist (writeTreeList h ts).2) a hcase
        exact hc a o ha (hne.symm.trans hget2).symm.symm
  | HTree.tdict ts, h, hok, hdom => by
    obtain ⟨hd, hv, hc⟩ := writeTreeDict_fresh ts h hok hdom
    refine ⟨?_, ?_, ?_⟩
    · show heapDomLt (heapAlloc (writeTreeDict h ts).1
        (HObj.hdict (writeTreeDict h ts).2)).1 = true
      exact heapDomLt_alloc _ _ hd
    · show decide (h.next ≤ (writeTreeDict h ts).1.next) = true
      exact decide_eq_true (writeTreeDict_next_mono ts h)
    · intro a o ha hget
      have hget2 : heapGet (heapAlloc (writeTreeDict h ts).1
          (HObj.hdict (writeTreeDict h ts).2)).1 a = some o := hget
      by_cases hcase : a = (writeTreeDict h ts).1.next
      · subst hcase
        have hself : heapGet (heapAlloc (writeTreeDict h ts).1
            (HObj.hdict (writeTreeDict h ts).2)).1 (writeTreeDict h ts).1.next
            = some (HObj.hdict (writeTreeDict h ts).2) :=
          heapGet_alloc_self _ _ hd
        have hoo := Option.some.inj (hself.symm.trans hget2)
        rw [← hoo]
        exact hv
      · have hne := heapGet_alloc_ne (writeTreeDict h ts).1
          (HObj.hdict (writeTreeDict h ts).2) a hcase
        exact hc a o ha (hne.symm.trans hget2)

theorem writeTreeList_fresh : ∀ (ts : HTreeList) (h : Heap),
    treeListLeafOK ts = true → heapDomLt h = true →
    heapDomLt (writeTreeList h ts).1 = true ∧
    (writeTreeList h ts).2.all (valGe h.next) = true ∧
    (∀ a o, h.next ≤ a → heapGet (writeTreeList h ts).1 a = some o →
      objGe h.next o = true)
  | HTreeList.lnil, h, _, hdom => by
    refine ⟨hdom, rfl, ?_⟩
    intro a o ha hget
    exact absurd (heapGet_lt_next h hdom a o hget) (Nat.not_lt.mpr ha)
  | HTreeList.lcons t ts, h, hok, hdom => by
    have hok2 : treeLeafOK t = true ∧ treeListLeafOK ts = true := by
      simpa [treeListLeafOK, Bool.and_eq_true] using hok
    obtain ⟨h1d, h1v, h1c⟩ := writeTree_fresh t h hok2.1 hdom
    obtain ⟨h2d, h2v, h2c⟩ := writeTreeList_fresh ts (writeTree h t).1 hok2.2 h1d
    refine ⟨h2d, ?_, ?_⟩
    · show ((writeTree h t).2 :: (writeTreeList (writeTree h t).1 ts).2).all
        (valGe h.next) = true
      simp only [List.all_cons, Bool.and_eq_true]
      exact ⟨h1v, valsGe_mono _ _ _ (writeTree_next_mono t h) h2v⟩
    · intro a o ha hget
      have hget2 : heapGet (writeTreeList (writeTree h t).1 ts).1 a = some o :=
        hget
      by_cases hcase : a < (writeTree h t).1.next
      · have hp := writeTreeList_pres ts (writeTree h t).1 a hcase
        exact h1c a o ha (hp.symm.trans hget2)
      · have := h2c a o (Nat.le_of_not_lt hcase) hget2
        exact objGe_mono _ _ o (writeTree_next_mono t h) this

theorem writeTreeDict_fresh : ∀ (ts : HTreeDict) (h : Heap),
    treeDictLeafOK ts = true → heapDomLt h = true →
    heapDomLt (writeTreeDict h ts).1 = true ∧
    (writeTreeDict h ts).2.all (fun e => valGe h.next e.2) = true ∧
    (∀ a o, h.next ≤ a → heapGet (writeTreeDict h ts).1 a = some o →
      objGe h.next o = true)
  | HTreeDict.dnil, h, _, hdom => by
    refine ⟨hdom, rfl, ?_⟩
    intro a o ha hget
    exact absurd (heapGet_lt_next h hdom a o hget) (Nat.not_lt.mpr ha)
  | HTreeDict.dcons k t ts, h, hok, hdom => by
    have hok2 : treeLeafOK t = true ∧ treeDictLeafOK ts = true := by
      simpa [treeDictLeafOK, Bool.and_eq_true] using hok
    obtain ⟨h1d, h1v, h1c⟩ := writeTree_fresh t h hok2.1 hdom
    obtain ⟨h2d, h2v, h2c⟩ := writeTreeDict_fresh ts (writeTree h t).1 hok2.2 h1d
    refine ⟨h2d, ?_, ?_⟩
    · show ((k, (writeTree h t).2) :: (writeTreeDict (writeTree h t).1 ts).2).all
        (fun e => valGe h.next e.2) = true
      simp only [List.all_cons, Bool.and_eq_true]
      exact ⟨h1v, dvalsGe_mono _ _ _ (writeTree_next_mono t h) h2v⟩
    · intro a o ha hget
      have hget2 : heapGet (writeTreeDict (writeTree h t).1 ts).1 a = some o :=
        hget
      by_cases hcase : a < (writeTree h t).1.next
      · have hp := writeTreeDict_pres ts (writeTree h t).1 a hcase
        exact h1c a o ha (hp.symm.trans hget2)
      · have := h2c a o (Nat.le_of_not_lt hcase) hget2
        exact objGe_mono _ _ o (writeTree_next_mono t h) this
end

theorem toTreeList_leafOK_of (fuel : Nat)
    (hp : ∀ (h : Heap) (v : HVal) (t : HTree), toTree fuel h v = some t →
      treeLeafOK t = true) :
    ∀ (h : Heap) (l : List HVal) (ts : HTreeList),
      toTreeList fuel h l = some ts → treeListLeafOK ts = true := by
  intro h l
  induction l with
  | nil =>
    intro ts hts
    simp only [toTreeList, Option.some.injEq] at hts
    rw [← hts]
    rfl
  | cons v rest ih =>
    intro ts hts
    simp only [toTreeList] at hts
    cases h1 : toTree fuel h v with
    | none => simp only [h1] at hts; exact Option.noConfusion hts
    | some t =>
      simp only [h1] at hts
      cases h2 : toTreeList fuel h rest with
      | none => simp only [h2] at hts; exact Option.noConfusion hts
      | some ts2 =>
        simp only [h2, Option.some.injEq] at hts
        rw [← hts]
        show (treeLeafOK t && treeListLeafOK ts2) = true
        simp only [Bool.and_eq_true]
        exact ⟨hp h v t h1, ih ts2 h2⟩

theorem toTreeDict_leafOK_of (fuel : Nat)
    (hp : ∀ (h : Heap) (v : HVal) (t : HTree), toTree fuel h v = some t →
      treeLeafOK t = true) :
    ∀ (h : Heap) (l : List (String × HVal)) (ts : HTreeDict),
      toTreeDict fuel h l = some ts → treeDictLeafOK ts = true := by
  intro h l
  induction l with
  | nil =>
    intro ts hts
    simp only [toTreeDict, Option.some.injEq] at hts
    rw [← hts]
    rfl
  | cons e rest ih =>
    intro ts hts
    obtain ⟨k, v⟩ := e
    simp only [toTreeDict] at hts
    cases h1 : toTree fuel h v with
    | none => simp only [h1] at hts; exact Option.noConfusion hts
    | some t =>
      simp only [h1] at hts
      cases h2 : toTreeDict fuel h rest with
      | none => simp only [h2] at hts; exact Option.noConfusion hts
      | some ts2 =>
        simp only [h2, Option.some.injEq] at hts
        rw [← hts]
        show (treeLeafOK t && treeDictLeafOK ts2) = true
        simp only [Bool.and_eq_true]
        exact ⟨hp h v t h1, ih ts2 h2⟩

theorem toTree_leafOK (fuel : Nat) :
    ∀ (h : Heap) (v : HVal) (t : HTree), toTree fuel h v = some t →
      treeLeafOK t = true := by
  induction fuel with
  | zero =>
    intro h v t hts
    cases v with
    | href a => simp only [toTree] at hts; exact Option.noConfusion hts
    | hnone =>
      simp only [toTree, Option.some.injEq] at hts
      rw [← hts]; rfl
    | hbool b =>
      simp only [toTree, Option.some.injEq] at hts
      rw [← hts]; rfl
    | hint i =>
      simp only [toTree, Option.some.injEq] at hts
      rw [← hts]; rfl
    | hnum q =>
      simp only [toTree, Option.some.injEq] at hts
      rw [← hts]; rfl
    | hstr s =>
      simp only [toTree, Option.some.injEq] at hts
      rw [← hts]; rfl
  | succ f ihf =>
    intro h v t hts
    cases v with
    | hnone =>
      simp only [toTree, Option.some.injEq] at hts
      rw [← hts]; rfl
    | hbool b =>
      simp only [toTree, Option.some.injEq] at hts
      rw [← hts]; rfl
    | hint i =>
      simp only [toTree, Option.some.injEq] at hts
      rw [← hts]; rfl
    | hnum q =>
      simp only [toTree, Option.some.injEq] at hts
      rw [← hts]; rfl
    | hstr s =>
      simp only [toTree, Option.some.injEq] at hts
      rw [← hts]; rfl
    | href a =>
      simp only [toTree] at hts
      cases hg : heapGet h a with
      | none => simp only [hg] at hts; exact Option.noConfusion hts
      | some o =>
        cases o with
        | hlist l =>
          simp only [hg] at hts
          cases hl : toTreeList f h l with
          | none => simp only [hl] at hts; exact Option.noConfusion hts
          | some ts =>
            simp only [hl, Option.some.injEq] at hts
            rw [← hts]
            show treeListLeafOK ts = true
            exact toTreeList_leafOK_of f ihf h l ts hl
        | hdict l =>
          simp only [hg] at hts
          cases hl : toTreeDict f h l with
          | none => simp only [hl] at hts; exact Option.noConfusion hts
          | some ts =>
            simp only [hl, Option.some.injEq] at hts
            rw [← hts]
            show treeDictLeafOK ts = true
            exact toTreeDict_leafOK_of f ihf h l ts hl

theorem FreshStep_refl (h : Heap) (hdom : heapDomLt h = true) :
    FreshStep h h := by
  refine ⟨hdom, le_refl _, fun a _ => rfl, ?_⟩
  intro a o ha hget
  exact absurd (heapGet_lt_next h hdom a o hget) (Nat.not_lt.mpr ha)

theorem FreshStep_trans (h1 h2 h3 : Heap) (f12 : FreshStep h1 h2)
    (f23 : FreshStep h2 h3) : FreshStep h1 h3 := by
  obtain ⟨d2, n12, p12, c12⟩ := f12
  obtain ⟨d3, n23, p23, c23⟩ := f23
  refine ⟨d3, Nat.le_trans n12 n23, ?_, ?_⟩
  · intro a ha
    rw [p23 a (Nat.lt_of_lt_of_le ha n12)]
    exact p12 a ha
  · intro a o ha hget
    by_cases hcase : a < h2.next
    · rw [p23 a hcase] at hget
      exact c12 a o ha hget
    · exact objGe_mono h2.next h1.next o n12
        (c23 a o (Nat.le_of_not_lt hcase) hget)

theorem deepcopyVal_fresh (fuel : Nat) (h : Heap) (v : HVal) (h2 : Heap)
    (v2 : HVal) (hdom : heapDomLt h = true)
    (hd : deepcopyVal fuel h v = some (h2, v2)) :
    FreshStep h h2 ∧ valGe h.next v2 = true := by
  simp only [deepcopyVal] at hd
  cases ht : toTree fuel h v with
  | none => simp only [ht] at hd; exact Option.noConfusion hd
  | some t =>
    simp only [ht, Option.map_some'] at hd
    have hok := toTree_leafOK fuel h v t ht
    obtain ⟨fd, fv, fc⟩ := writeTree_fresh t h hok hdom
    have hmono := writeTree_next_mono t h
    have hpres := writeTree_pres t h
    have hd' := Option.some.inj hd
    have e1 : (writeTree h t).1 = h2 := congrArg Prod.fst hd'
    have e2 : (writeTree h t).2 = v2 := congrArg Prod.snd hd'
    rw [e1] at fd fc hmono hpres
    rw [e2] at fv
    exact ⟨⟨fd, hmono, hpres, fc⟩, fv⟩

theorem deepcopyAddr_fresh (fuel : Nat) (h : Heap) (a : Addr) (h2 : Heap)
    (a2 : Addr) (hdom : heapDomLt h = true)
    (hd : deepcopyAddr fuel h a = some (h2, a2)) :
    FreshStep h h2 ∧ h.next ≤ a2 := by
  simp only [deepcopyAddr] at hd
  cases hv : deepcopyVal fuel h (HVal.href a) with
  | none => simp only [hv] at hd; exact Option.noConfusion hd
  | some pr =>
    obtain ⟨hh, vv⟩ := pr
    simp only [hv] at hd
    cases vv with
    | href b =>
      have hd2 : some (hh, b) = some (h2, a2) := hd
      have hd3 := Option.some.inj hd2
      have e1 : hh = h2 := congrArg Prod.fst hd3
      have e2 : b = a2 := congrArg Prod.snd hd3
      have hfv := deepcopyVal_fresh fuel h (HVal.href a) hh (HVal.href b)
        hdom hv
      refine ⟨e1 ▸ hfv.1, e2 ▸ ?_⟩
      have := hfv.2
      simpa [valGe] using this
    | hnone => exact absurd hd (by simp)
    | hbool b => exact absurd hd (by simp)
    | hint i => exact absurd hd (by simp)
    | hnum q => exact absurd hd (by simp)
    | hstr s => exact absurd hd (by simp)

theorem get_state_H_detached (fuel : Nat) (h : Heap) (m : ManagerH)
    (hh : Heap) (os : Option ResearchStateH)
    (hdom : heapDomLt h = true)
    (hres : get_state_H fuel h m = some (hh, os)) :
    FreshStep h hh ∧ ∀ c, os = some c → stateGe h.next c = true := by
  cases hcur : m.current_state with
  | none =>
    simp only [get_state_H, hcur, Option.some.injEq, Prod.mk.injEq] at hres
    obtain ⟨rfl, rfl⟩ := hres
    exact ⟨FreshStep_refl h hdom, fun c hc => by cases hc⟩
  | some s =>
    simp only [get_state_H, hcur] at hres
    cases hd1 : deepcopyVal fuel h s.target with
    | none => simp only [hd1] at hres; exact Option.noConfusion hres
    | some pr1 =>
      obtain ⟨h1, tgt⟩ := pr1
      simp only [hd1] at hres
      cases hd2 : deepcopyAddr fuel h1 s.data_store with
      | none => simp only [hd2] at hres; exact Option.noConfusion hres
      | some pr2 =>
        obtain ⟨h2, ds⟩ := pr2
        simp only [hd2] at hres
        cases hd3 : deepcopyAddr fuel h2 s.analytic_metrics with
        | none => simp only [hd3] at hres; exact Option.noConfusion hres
        | some pr3 =>
          obtain ⟨h3, am⟩ := pr3
          simp only [hd3] at hres
          cases hd4 : deepcopyAddr fuel h3 s.rules_violations with
          | none => simp only [hd4] at hres; exact Option.noConfusion hres
          | some pr4 =>
            obtain ⟨h4, rv⟩ := pr4
            simp only [hd4] at hres
            cases hd5 : deepcopyAddr fuel h4 s.messages with
            | none => simp only [hd5] at hres; exact Option.noConfusion hres
            | some pr5 =>
              obtain ⟨h5, ms⟩ := pr5
              simp only [hd5, Option.some.injEq, Prod.mk.injEq] at hres
              obtain ⟨rfl, rfl⟩ := hres
              obtain ⟨f1, v1⟩ := deepcopyVal_fresh fuel h s.target h1 tgt
                hdom hd1
              obtain ⟨f2, v2⟩ := deepcopyAddr_fresh fuel h1 s.data_store h2 ds
                f1.1 hd2
              obtain ⟨f3, v3⟩ := deepcopyAddr_fresh fuel h2 s.analytic_metrics
                h3 am f2.1 hd3
              obtain ⟨f4, v4⟩ := deepcopyAddr_fresh fuel h3 s.rules_violations
                h4 rv f3.1 hd4
              obtain ⟨f5, v5⟩ := deepcopyAddr_fresh fuel h4 s.messages h5 ms
                f4.1 hd5
              have fs : FreshStep h h5 :=
        FreshStep_trans _ _ _ (FreshStep_trans _ _ _ (FreshStep_trans _ _ _
          (FreshStep_trans _ _ _ f1 f2) f3) f4) f5
              refine ⟨fs, ?_⟩
              intro c hc
              have hcc := Option.some.inj hc
              rw [← hcc]
              simp only [stateGe, Bool.and_eq_true, decide_eq_true_eq]
              refine ⟨⟨⟨⟨v1, ?_⟩, ?_⟩, ?_⟩, ?_⟩
              · exact Nat.le_trans f1.2.1 v2
              · exact Nat.le_trans f1.2.1 (Nat.le_trans f2.2.1 v3)
              · exact Nat.le_trans f1.2.1 (Nat.le_trans f2.2.1
                  (Nat.le_trans f3.2.1 v4))
              · exact Nat.le_trans f1.2.1 (Nat.le_trans f2.2.1
                  (Nat.le_trans f3.2.1 (Nat.le_trans f4.2.1 v5)))

theorem traceEntry_shape (h : Heap) (msg : HVal) :
    ∃ row, traceEntry h msg
      = ((heapAlloc h (HObj.hdict row)).1,
         HVal.href (heapAlloc h (HObj.hdict row)).2) := by
  cases msg with
  | href a =>
    simp only [traceEntry]
    cases hg : heapGet h a with
    | none => exact ⟨[], rfl⟩
    | some o =>
      cases o with
      | hlist l => exact ⟨[], rfl⟩
      | hdict l => exact ⟨_, rfl⟩
  | hnone => exact ⟨[], rfl⟩
  | hbool b => exact ⟨[], rfl⟩
  | hint i => exact ⟨[], rfl⟩
  | hnum q => exact ⟨[], rfl⟩
  | hstr s => exact ⟨[], rfl⟩

theorem buildTrace_step (msgs : List HVal) : ∀ (h : Heap),
    heapDomLt h = true →
    heapDomLt (buildTrace h msgs).1 = true ∧
    h.next ≤ (buildTrace h msgs).1.next ∧
    (∀ a, a < h.next → heapGet (buildTrace h msgs).1 a = heapGet h a) := by
  induction msgs with
  | nil => exact fun h hdom => ⟨hdom, le_refl _, fun a _ => rfl⟩
  | cons msg rest ih =>
    intro h hdom
    obtain ⟨row, hrow⟩ := traceEntry_shape h msg
    have hd1 : heapDomLt (traceEntry h msg).1 = true := by
      rw [hrow]; exact heapDomLt_alloc _ _ hdom
    have hn1 : h.next ≤ (traceEntry h msg).1.next := by
      rw [hrow]; exact Nat.le_succ _
    have hp1 : ∀ a, a < h.next →
        heapGet (traceEntry h msg).1 a = heapGet h a := by
      intro a ha; rw [hrow]; exact heapGet_alloc_lt _ _ a ha
    obtain ⟨d2, n2, p2⟩ := ih (traceEntry h msg).1 hd1
    refine ⟨d2, Nat.le_trans hn1 n2, ?_⟩
    intro a ha
    show heapGet (buildTrace (traceEntry h msg).1 rest).1 a = heapGet h a
    rw [p2 a (Nat.lt_of_lt_of_le ha hn1)]
    exact hp1 a ha

theorem get_evidence_chain_pres (h : Heap) (m : ManagerH) (key : String)
    (hdom : heapDomLt h = true) :
    ∀ a, a < h.next →
      heapGet (get_evidence_chain_H h m key).1 a = heapGet h a := by
  intro a ha
  cases hcur : m.current_state with
  | none =>
    simp only [get_evidence_chain_H, hcur]
    exact heapGet_alloc_lt _ _ a ha
  | some s =>
    simp only [get_evidence_chain_H, hcur]
    obtain ⟨bd, bn, bp⟩ := buildTrace_step
      (match heapGet h s.messages with
        | some (HObj.hlist l) => l
        | _ => []) h hdom
    rw [heapGet_alloc_lt _ _ a
      (Nat.lt_of_lt_of_le ha (Nat.le_trans bn (Nat.le_succ _)))]
    rw [heapGet_alloc_lt _ _ a (Nat.lt_of_lt_of_le ha bn)]
    exact bp a ha

theorem get_evidence_chain_alias (h : Heap) (m : ManagerH)
    (s : ResearchStateH) (hdom : heapDomLt h = true)
    (hcur : m.current_state = some s) :
    ∃ ev : Addr,
      (get_evidence_chain_H h m "rules_violations").2 = HVal.href ev ∧
      heapDictGet (get_evidence_chain_H h m "rules_violations").1 ev
        "supporting_metrics" = HVal.href s.analytic_metrics := by
  simp only [get_evidence_chain_H, hcur]
  obtain ⟨bd, bn, bp⟩ := buildTrace_step
    (match heapGet h s.messages with
      | some (HObj.hlist l) => l
      | _ => []) h hdom
  have hdp : heapDomLt (heapAlloc (buildTrace h
      (match heapGet h s.messages with
        | some (HObj.hlist l) => l
        | _ => [])).1
      (HObj.hlist (buildTrace h
        (match heapGet h s.messages with
          | some (HObj.hlist l) => l
          | _ => [])).2)).1 = true :=
    heapDomLt_alloc _ _ bd
  refine ⟨_, rfl, ?_⟩
  simp only [heapDictGet]
  rw [heapGet_alloc_self _ _ hdp]
  rfl

theorem ckRow_objGe (n : Nat) (c : ResearchStateH) :
    objGe n (ckRow c) = true := by
  cases hmd : c.snapshot_metadata with
  | none => simp only [ckRow, hmd]; rfl
  | some md => simp only [ckRow, hmd]; rfl

theorem ckFold_props (n : Nat) : ∀ (rows : List HObj)
    (acc : Heap × List HVal),
    (∀ o ∈ rows, objGe n o = true) → heapDomLt acc.1 = true →
    n ≤ acc.1.next → acc.2.all (valGe n) = true →
    heapDomLt (ckFold rows acc).1 = true ∧
    acc.1.next ≤ (ckFold rows acc).1.next ∧
    (∀ a, a < acc.1.next → heapGet (ckFold rows acc).1 a = heapGet acc.1 a) ∧
    (∀ a o, acc.1.next ≤ a → heapGet (ckFold rows acc).1 a = some o →
      objGe n o = true) ∧
    (ckFold rows acc).2.all (valGe n) = true := by
  intro rows
  induction rows with
  | nil =>
    intro acc _ hdom _ hvals
    refine ⟨hdom, le_refl _, fun a _ => rfl, ?_, hvals⟩
    intro a o ha hget
    exact absurd (heapGet_lt_next _ hdom a o hget) (Nat.not_lt.mpr ha)
  | cons o rest ih =>
    intro acc hrows hdom hn hvals
    have hq : heapDomLt (heapAlloc acc.1 o).1 = true :=
      heapDomLt_alloc _ _ hdom
    have hvals2 : (acc.2 ++ [HVal.href (heapAlloc acc.1 o).2]).all
        (valGe n) = true := by
      simp only [List.all_append, List.all_cons, List.all_nil,
        Bool.and_eq_true]
      refine ⟨hvals, ?_, trivial⟩
      show decide (n ≤ acc.1.next) = true
      exact decide_eq_true hn
    obtain ⟨d1, m1, p1, c1, v1⟩ := ih
      ((heapAlloc acc.1 o).1, acc.2 ++ [HVal.href (heapAlloc acc.1 o).2])
      (fun o2 ho2 => hrows o2 (List.mem_cons_of_mem _ ho2)) hq
      (Nat.le_trans hn (Nat.le_succ _)) hvals2
    refine ⟨d1, Nat.le_trans (Nat.le_succ _) m1, ?_, ?_, v1⟩
    · intro a ha
      show heapGet (ckFold rest ((heapAlloc acc.1 o).1,
        acc.2 ++ [HVal.href (heapAlloc acc.1 o).2])).1 a = heapGet acc.1 a
      rw [p1 a (Nat.lt_succ_of_lt ha)]
      exact heapGet_alloc_lt _ _ a ha
    · intro a o2 ha hget
      have hget2 : heapGet (ckFold rest ((heapAlloc acc.1 o).1,
        acc.2 ++ [HVal.href (heapAlloc acc.1 o).2])).1 a = some o2 := hget
      by_cases hcase : a = acc.1.next
      · subst hcase
        rw [p1 acc.1.next (Nat.lt_succ_self _)] at hget2
        have hself : heapGet (heapAlloc acc.1 o).1 acc.1.next = some o :=
          heapGet_alloc_self _ _ hdom
        have hoo := Option.some.inj (hself.symm.trans hget2)
        rw [← hoo]
        exact hrows o (List.mem_cons_self _ _)
      · have ha2 : (heapAlloc acc.1 o).1.next ≤ a := by
          show acc.1.next + 1 ≤ a
          exact Nat.lt_of_le_of_ne ha (fun hh => hcase hh.symm)
        exact c1 a o2 ha2 hget2

theorem list_checkpoints_H_detached (h : Heap) (m : ManagerH)
    (tid : Option String) (hdom : heapDomLt h = true) :
    FreshStep h (list_checkpoints_H h m tid).1 ∧
    ∀ v, (list_checkpoints_H h m tid).2 = some v → valGe h.next v = true := by
  cases htid : ckTid m tid with
  | none =>
    simp only [list_checkpoints_H, htid]
    exact ⟨FreshStep_refl h hdom, fun v hv => Option.noConfusion hv⟩
  | some t =>
    by_cases ht : t = ""
    · subst ht
      simp only [list_checkpoints_H, htid]
      exact ⟨FreshStep_refl h hdom, fun v hv => Option.noConfusion hv⟩
    · simp only [list_checkpoints_H, htid, if_neg ht]
      obtain ⟨d1, m1, p1, c1, v1⟩ := ckFold_props h.next
        (((dGet m.checkpoints t).getD []).map ckRow) (h, [])
        (by
          intro o ho
          obtain ⟨c, _, hc⟩ := List.mem_map.1 ho
          rw [← hc]
          exact ckRow_objGe h.next c)
        hdom (le_refl _) rfl
      refine ⟨⟨heapDomLt_alloc _ _ d1,
        Nat.le_trans m1 (Nat.le_succ _), ?_, ?_⟩, ?_⟩
      · intro a ha
        show heapGet (heapAlloc (ckFold (((dGet m.checkpoints t).getD
          []).map ckRow) (h, [])).1 (HObj.hlist (ckFold (((dGet
          m.checkpoints t).getD []).map ckRow) (h, [])).2)).1 a = heapGet h a
        rw [heapGet_alloc_lt _ _ a (Nat.lt_of_lt_of_le ha m1)]
        exact p1 a ha
      · intro a o ha hget
        have hget2 : heapGet (heapAlloc (ckFold (((dGet m.checkpoints
          t).getD []).map ckRow) (h, [])).1 (HObj.hlist (ckFold (((dGet
          m.checkpoints t).getD []).map ckRow) (h, [])).2)).1 a = some o :=
          hget
        by_cases hcase : a = (ckFold (((dGet m.checkpoints t).getD
          []).map ckRow) (h, [])).1.next
        · subst hcase
          have hself := heapGet_alloc_self (ckFold (((dGet m.checkpoints
            t).getD []).map ckRow) (h, [])).1 (HObj.hlist (ckFold (((dGet
            m.checkpoints t).getD []).map ckRow) (h, [])).2) d1
          have hoo := Option.some.inj (hself.symm.trans hget2)
          rw [← hoo]
          exact v1
        · have hne := heapGet_alloc_ne (ckFold (((dGet m.checkpoints
            t).getD []).map ckRow) (h, [])).1 (HObj.hlist (ckFold (((dGet
            m.checkpoints t).getD []).map ckRow) (h, [])).2) a hcase
          exact c1 a o ha (hne.symm.trans hget2)
      · intro v hv
        have hv2 : some (HVal.href (ckFold (((dGet m.checkpoints t).getD
          []).map ckRow) (h, [])).1.next) = some v := hv
        rw [← Option.some.inj hv2]
        show decide (h.next ≤ (ckFold (((dGet m.checkpoints t).getD
          []).map ckRow) (h, [])).1.next) = true
        exact decide_eq_true m1

/-- C4 (amended): the read-only accessors never mutate the manager.
get_state returns a fully detached deep copy: the call only allocates
(FreshStep), and every mutable field of the returned state lives in the
fresh region, disjoint from everything the manager held. list_checkpoints
likewise returns a fresh list of fresh scalar dicts. get_evidence_chain
also leaves the manager-reachable region untouched, but the claim that it
returns a value "sharing no mutable structure" with the manager is false:
for conclusion_key "rules_violations" the returned evidence dict stores a
direct reference to the current state's analytic_metrics dict under
"supporting_metrics" (state.py line 268 stores state.analytic_metrics
itself, not a copy). -/
theorem C4_read_only_accessors (fuel : Nat) (h : Heap) (m : ManagerH)
    (s : ResearchStateH) (key : String) (tid : Option String)
    (hdom : heapDomLt h = true) (hcur : m.current_state = some s) :
    (∀ hh os, get_state_H fuel h m = some (hh, os) →
      FreshStep h hh ∧ ∀ c, os = some c → stateGe h.next c = true) ∧
    (FreshStep h (list_checkpoints_H h m tid).1 ∧
      ∀ v, (list_checkpoints_H h m tid).2 = some v →
        valGe h.next v = true) ∧
    ((∀ a, a < h.next →
        heapGet (get_evidence_chain_H h m key).1 a = heapGet h a) ∧
      ∃ ev : Addr,
        (get_evidence_chain_H h m "rules_violations").2 = HVal.href ev ∧
        heapDictGet (get_evidence_chain_H h m "rules_violations").1 ev
          "supporting_metrics" = HVal.href s.analytic_metrics) := by
  refine ⟨?_, list_checkpoints_H_detached h m tid hdom,
    get_evidence_chain_pres h m key hdom,
    get_evidence_chain_alias h m s hdom hcur⟩
  intro hh os hres
  exact get_state_H_detached fuel h m hh os hdom hres

/-- C4 witness: the amended contract instantiated on the concrete heap
heapC4 and manager mgrC4, with both hypotheses discharged. -/
theorem C4_read_only_accessors_witness :
    (heapDomLt heapC4 = true ∧ mgrC4.current_state = some stateC4) ∧
    ((∀ hh os, get_state_H 3 heapC4 mgrC4 = some (hh, os) →
      FreshStep heapC4 hh ∧
        ∀ c, os = some c → stateGe heapC4.next c = true) ∧
    (FreshStep heapC4 (list_checkpoints_H heapC4 mgrC4 (some "t1")).1 ∧
      ∀ v, (list_checkpoints_H heapC4 mgrC4 (some "t1")).2 = some v →
        valGe heapC4.next v = true) ∧
    ((∀ a, a < heapC4.next →
        heapGet (get_evidence_chain_H heapC4 mgrC4 "rules_violations").1 a
          = heapGet heapC4 a) ∧
      ∃ ev : Addr,
        (get_evidence_chain_H heapC4 mgrC4 "rules_violations").2
          = HVal.href ev ∧
        heapDictGet (get_evidence_chain_H heapC4 mgrC4
          "rules_violations").1 ev "supporting_metrics"
          = HVal.href stateC4.analytic_metrics)) :=
  ⟨⟨by decide, rfl⟩, C4_read_only_accessors 3 heapC4 mgrC4 stateC4
    "rules_violations" (some "t1") (by decide) rfl⟩

/-- C4 counterexample to the original claim: on heapC4/mgrC4, the
evidence dict returned by get_evidence_chain("rules_violations") (a
reference to address 5) stores a direct reference to address 0 under
"supporting_metrics" — exactly the manager state's analytic_metrics
address — and a dict write through that shared address changes the value
observable at stateC4.analytic_metrics, so the returned value does share
mutable structure with the manager's internal state. -/
theorem C4_read_only_accessors_counterexample :
    ((get_evidence_chain_H heapC4 mgrC4 "rules_violations").2
        = HVal.href 5 ∧
      heapDictGet (get_evidence_chain_H heapC4 mgrC4
        "rules_violations").1 5 "supporting_metrics" = HVal.href 0) ∧
    stateC4.analytic_metrics = 0 ∧
    mgrC4.current_state = some stateC4 ∧
    heapDictGet (get_evidence_chain_H heapC4 mgrC4
      "rules_violations").1 0 "x" = HVal.hnum 1 ∧
    heapDictGet (heapDictSet (get_evidence_chain_H heapC4 mgrC4
      "rules_violations").1 0 "x" (HVal.hnum 99)) 0 "x" = HVal.hnum 99 :=
  ⟨⟨rfl, rfl⟩, rfl, rfl, rfl, rfl⟩

/-- C10 witness: explicit id "t9" is recorded in both places; omitted id
with distinct draws "ua" and "ub" leaves mismatched thread ids. -/
theorem C10_init_state_thread_ids_witness :
    ((init_state StateManager.new "q" (some "t9") "ua" "ub" 0).2.thread_id = "t9" ∧
      ((init_state StateManager.new "q" (some "t9") "ua" "ub" 0).2.snapshot_metadata.map
        SnapshotMetadata.thread_id) = some "t9") ∧
    ((init_state StateManager.new "q" none "ua" "ub" 0).2.snapshot_metadata.map
      SnapshotMetadata.thread_id) ≠
      some ((init_state StateManager.new "q" none "ua" "ub" 0).2.thread_id) := by
  have h := C10_init_state_thread_ids StateManager.new "q" "t9" "ua" "ub" 0
    (by decide)
  exact ⟨h.1, h.2.2.2 (by decide)⟩

end FinResearch
